import Mathlib

/-!
Verification development for the PDF color-space engine of this repository
(`ColorSpace` and its nine variants, the descriptor parser, and the
fill/resize raster glue).

Modelling conventions:
* JavaScript numbers are idealized as exact rationals (`ℚ`); the two
  transcendental library functions the engine uses (`Math.pow`, `Math.sqrt`)
  are threaded through every conversion as an explicit parameter record
  `JsMath`, so every theorem below holds for an arbitrary interpretation of
  those two functions unless it instantiates them.
* Byte buffers (`Uint8ClampedArray` / `Uint8Array`) are `List ℕ`.  A store
  into a `Uint8ClampedArray` applies `toUint8Clamp` (clamp to `[0,255]`,
  round half to even); a store of a nonnegative integer is `min · 255`.
  Out-of-range reads yield `undefined` in JavaScript; reads are modelled
  with `List.getD · 0`, matching the observable byte output on the
  in-range inputs the claims quantify over.  Out-of-range list writes are
  dropped by `List.set`, matching typed-array index-write semantics.
* Fallible operations (`FormatError`, the base-class `unreachable` throws)
  return `Except Unit`.
-/

set_option maxRecDepth 4000

/-- Conversion applied when a JavaScript number is stored into a
`Uint8ClampedArray` (the ToUint8Clamp abstract operation): clamp to
`[0, 255]`, then round to the nearest integer with ties to even. -/
def toUint8Clamp (x : ℚ) : ℕ :=
  if x ≤ 0 then 0
  else if 255 ≤ x then 255
  else if x - Int.floor x < 1/2 then (Int.floor x).toNat
  else if (1:ℚ)/2 < x - Int.floor x then (Int.floor x).toNat + 1
  else if (Int.floor x).toNat % 2 = 0 then (Int.floor x).toNat
  else (Int.floor x).toNat + 1

/-- Store of a nonnegative integer into a `Uint8ClampedArray` slot. -/
def clamp255 (v : ℕ) : ℕ := min v 255

/-- Write three converted rational values at `i`, `i+1`, `i+2`. -/
def set3q (d : List ℕ) (i : ℕ) (r g b : ℚ) : List ℕ :=
  ((d.set i (toUint8Clamp r)).set (i+1) (toUint8Clamp g)).set (i+2) (toUint8Clamp b)

/-- Write three integer byte values at `i`, `i+1`, `i+2`. -/
def set3n (d : List ℕ) (i : ℕ) (r g b : ℕ) : List ℕ :=
  ((d.set i (clamp255 r)).set (i+1) (clamp255 g)).set (i+2) (clamp255 b)

/-- Sequential store of integer values into a clamped byte buffer, starting
at index `i` (models `TypedArray.prototype.set`). -/
def writeNatSeq (d : List ℕ) (i : ℕ) : List ℕ → List ℕ
  | [] => d
  | v :: vs => writeNatSeq (d.set i (clamp255 v)) (i+1) vs

/-- Sequential store of rational values into a clamped byte buffer. -/
def writeQSeq (d : List ℕ) (i : ℕ) : List ℚ → List ℕ
  | [] => d
  | v :: vs => writeQSeq (d.set i (toUint8Clamp v)) (i+1) vs

/-- Truncation of a nonnegative rational used where the source indexes an
array with a computed number (`Math.floor`, `| 0`); the claims only
exercise it on nonnegative integers, where it is the identity. -/
def ratIdx (x : ℚ) : ℕ := (Int.floor x).toNat

/-- The two `Math` library functions the engine calls.  They are kept
abstract: every structural theorem below holds for an arbitrary
interpretation. -/
structure JsMath where
  pow : ℚ → ℚ → ℚ
  sqrt : ℚ → ℚ

/-- A trivial interpretation of `JsMath`, used by concrete counterexamples
and witnesses that never evaluate `pow` or `sqrt`. -/
def jsm0 : JsMath := ⟨fun _ _ => 0, fun _ => 0⟩

/-- Name tag of `DeviceGrayCS`. -/
def nmDeviceGray : String := "DeviceGray"

/-- Name tag of `DeviceRgbCS`. -/
def nmDeviceRGB : String := "DeviceRGB"

/-- Name tag of `DeviceCmykCS`. -/
def nmDeviceCMYK : String := "DeviceCMYK"

/-- Name tag of `CalGrayCS`. -/
def nmCalGray : String := "CalGray"

/-- Name tag of `CalRGBCS`. -/
def nmCalRGB : String := "CalRGB"

/-- Name tag of `LabCS`. -/
def nmLab : String := "Lab"

/-- Name tag of `IndexedCS`. -/
def nmIndexed : String := "Indexed"

/-- Name tag of `AlternateCS`. -/
def nmAlternate : String := "Alternate"

/-- Name tag of `PatternCS`. -/
def nmPattern : String := "Pattern"

/-- Post-construction state of a `CalRGBCS` instance: white point, (possibly
reset) black point, (possibly reset) gamma triple, and the 9-entry
column-major matrix. -/
structure CalRGBData where
  XW : ℚ
  YW : ℚ
  ZW : ℚ
  XB : ℚ
  YB : ℚ
  ZB : ℚ
  GR : ℚ
  GG : ℚ
  GB : ℚ
  mat : List ℚ

/-- Post-construction state of a `LabCS` instance. -/
structure LabData where
  XW : ℚ
  YW : ℚ
  ZW : ℚ
  amin : ℚ
  amax : ℚ
  bmin : ℚ
  bmax : ℚ

/-- A constructed color-space instance: the sealed family of the nine
`ColorSpace` subclasses, with the fields each constructor stores.  The
`alternate` tint function maps the scaled source components to the tinted
components (the external `TintFn(src, srcOffset, dest, destOffset)`
callback, always invoked with offsets 0 in the engine). -/
inductive CS where
  | deviceGray : CS
  | deviceRGB : CS
  | deviceCmyk : CS
  | calGray (XW YW ZW G : ℚ) : CS
  | calRGB (d : CalRGBData) : CS
  | lab (d : LabData) : CS
  | indexed (base : CS) (highVal : ℕ) (lookup : List ℕ) : CS
  | alternate (numComps : ℕ) (base : CS) (tint : List ℚ → List ℚ) : CS
  | pattern (base : Option CS) : CS

/-- The `numComps` attribute set by each constructor (`null` for Pattern). -/
def CS.ncOpt : CS → Option ℕ
  | .deviceGray => some 1
  | .deviceRGB => some 3
  | .deviceCmyk => some 4
  | .calGray _ _ _ _ => some 1
  | .calRGB _ => some 3
  | .lab _ => some 3
  | .indexed _ _ _ => some 1
  | .alternate n _ _ => some n
  | .pattern _ => none

/-- `numComps` coerced as JavaScript does in arithmetic (`null` → 0). -/
def CS.nc (c : CS) : ℕ := c.ncOpt.getD 0

/-- The `name` attribute set by each constructor. -/
def CS.csName : CS → String
  | .deviceGray => nmDeviceGray
  | .deviceRGB => nmDeviceRGB
  | .deviceCmyk => nmDeviceCMYK
  | .calGray _ _ _ _ => nmCalGray
  | .calRGB _ => nmCalRGB
  | .lab _ => nmLab
  | .indexed _ _ _ => nmIndexed
  | .alternate _ _ _ => nmAlternate
  | .pattern _ => nmPattern

/-- The `usesZeroToOneRange` getter: true for every class except `LabCS`. -/
def CS.u01 : CS → Bool
  | .lab _ => false
  | _ => true

/-- The fixed polynomial of `DeviceCmykCS.convertToRgb`, with the source's
52 coefficients, evaluated at the scaled components. -/
def cmykConvert (c m y k : ℚ) : ℚ × ℚ × ℚ :=
  (255 +
      c * (-4.387332384609988 * c + 54.48615194189176 * m +
           18.82290502165302 * y + 212.25662451639585 * k +
           -285.2331026137004) +
      m * (1.7149763477362134 * m - 5.6096736904047315 * y +
           -17.873870861415444 * k - 5.497006427196366) +
      y * (-2.5217340131683033 * y - 21.248923337353073 * k +
           17.5119270841813) +
      k * (-21.86122147463605 * k - 189.48180835922747),
   255 +
      c * (8.841041422036149 * c + 60.118027045597366 * m +
           6.871425592049007 * y + 31.159100130055922 * k +
           -79.2970844816548) +
      m * (-15.310361306967817 * m + 17.575251261109482 * y +
           131.35250912493976 * k - 190.9453302588951) +
      y * (4.444339102852739 * y + 9.8632861493405 * k - 24.86741582555878) +
      k * (-20.737325471181034 * k - 187.80453709719578),
   255 +
      c * (0.8842522430003296 * c + 8.078677503112928 * m +
           30.89978309703729 * y - 0.23883238689178934 * k +
           -14.183576799673286) +
      m * (10.49593273432072 * m + 63.02378494754052 * y +
           50.606957656360734 * k - 112.23884253719248) +
      y * (0.03296041114873217 * y + 115.60384449646641 * k +
           -193.58209356861505) +
      k * (-22.33816807309886 * k - 180.12613974708367))

/-- `CalGrayCS.convertToRgb` on the already scaled gray component `A`:
`AG = A^G`, `L = YW * AG`, `val = max(295.8 * L^(1/3) - 40.8, 0)`. -/
def calGrayConvert (p : JsMath) (YW G A : ℚ) : ℚ :=
  max (295.8 * p.pow (YW * p.pow A G) 0.333333333333333333 - 40.8) 0

/-- `adjustToRange(min, max, value)` from the `CalRGBCS` closure. -/
def adjustToRange (lo hi value : ℚ) : ℚ := max lo (min hi value)

/-- The `BRADFORD_SCALE_MATRIX` constant. -/
def bradfordScale : List ℚ :=
  [0.8951, 0.2664, -0.1614,
   -0.7502, 1.7135, 0.0367,
   0.0389, -0.0685, 1.0296]

/-- The `BRADFORD_SCALE_INVERSE_MATRIX` constant. -/
def bradfordScaleInverse : List ℚ :=
  [0.9869929, -0.1470543, 0.1599627,
   0.4323053, 0.5183603, 0.0492912,
   -0.0085287, 0.0400428, 0.9684867]

/-- The `SRGB_D65_XYZ_TO_RGB_MATRIX` constant. -/
def srgbD65XyzToRgb : List ℚ :=
  [3.2404542, -1.5371385, -0.4985314,
   -0.9692660, 1.8760108, 0.0415560,
   0.0556434, -0.2040259, 1.0572252]

/-- `matrixProduct`: 3×3 matrix (row-major 9-list) times a column vector. -/
def matrixProduct (a : List ℚ) (b : ℚ × ℚ × ℚ) : ℚ × ℚ × ℚ :=
  (a.getD 0 0 * b.1 + a.getD 1 0 * b.2.1 + a.getD 2 0 * b.2.2,
   a.getD 3 0 * b.1 + a.getD 4 0 * b.2.1 + a.getD 5 0 * b.2.2,
   a.getD 6 0 * b.1 + a.getD 7 0 * b.2.1 + a.getD 8 0 * b.2.2)

/-- `convertToFlat`: divide each LMS component by the source white's LMS. -/
def convertToFlat (wp lms : ℚ × ℚ × ℚ) : ℚ × ℚ × ℚ :=
  (lms.1 * 1 / wp.1, lms.2.1 * 1 / wp.2.1, lms.2.2 * 1 / wp.2.2)

/-- `convertToD65`: rescale each LMS component to the D65 white. -/
def convertToD65 (wp lms : ℚ × ℚ × ℚ) : ℚ × ℚ × ℚ :=
  (lms.1 * 0.95047 / wp.1, lms.2.1 * 1 / wp.2.1, lms.2.2 * 1.08883 / wp.2.2)

/-- The sRGB companding function with its `[0,1]` clamp. -/
def sRGBTransferFunction (p : JsMath) (color : ℚ) : ℚ :=
  if color ≤ 0.0031308 then adjustToRange 0 1 (12.92 * color)
  else adjustToRange 0 1 ((1 + 0.055) * p.pow color (1/2.4) - 0.055)

/-- The `DECODE_L_CONSTANT` of the `CalRGBCS` closure. -/
def decodeLConstant (p : JsMath) : ℚ := p.pow ((8 + 16) / 116) 3 / 8

/-- `decodeL` on nonnegative input. -/
def decodeLpos (p : JsMath) (L : ℚ) : ℚ :=
  if 8 < L then p.pow ((L + 16) / 116) 3 else L * decodeLConstant p

/-- `decodeL`, odd-symmetric on negative input. -/
def decodeL (p : JsMath) (L : ℚ) : ℚ :=
  if L < 0 then -(decodeLpos p (-L)) else decodeLpos p L

/-- `compensateBlackPoint` against the default destination black. -/
def compensateBlackPoint (p : JsMath) (bp xyzFlat : ℚ × ℚ × ℚ) : ℚ × ℚ × ℚ :=
  if bp.1 = 0 ∧ bp.2.1 = 0 ∧ bp.2.2 = 0 then xyzFlat
  else
    let zero := decodeL p 0
    let xScale := (1 - zero) / (1 - decodeL p bp.1)
    let yScale := (1 - zero) / (1 - decodeL p bp.2.1)
    let zScale := (1 - zero) / (1 - decodeL p bp.2.2)
    (xyzFlat.1 * xScale + (1 - xScale),
     xyzFlat.2.1 * yScale + (1 - yScale),
     xyzFlat.2.2 * zScale + (1 - zScale))

/-- `normalizeWhitePointToFlat` (skips when the white point is already
flat in its first and third components). -/
def normalizeWhitePointToFlat (wp xyzIn : ℚ × ℚ × ℚ) : ℚ × ℚ × ℚ :=
  if wp.1 = 1 ∧ wp.2.2 = 1 then xyzIn
  else
    matrixProduct bradfordScaleInverse
      (convertToFlat wp (matrixProduct bradfordScale xyzIn))

/-- `normalizeWhitePointToD65`. -/
def normalizeWhitePointToD65 (wp xyzIn : ℚ × ℚ × ℚ) : ℚ × ℚ × ℚ :=
  matrixProduct bradfordScaleInverse
    (convertToD65 wp (matrixProduct bradfordScale xyzIn))

/-- `CalRGBCS.convertToRgb` producing the three rational channel values
(before the clamped byte store); inputs are the already scaled source
components. -/
def calRGBConvert (p : JsMath) (d : CalRGBData) (a0 b0 c0 : ℚ) : ℚ × ℚ × ℚ :=
  let A := adjustToRange 0 1 a0
  let B := adjustToRange 0 1 b0
  let C := adjustToRange 0 1 c0
  let AGR := p.pow A d.GR
  let BGG := p.pow B d.GG
  let CGB := p.pow C d.GB
  let m := d.mat
  let X := m.getD 0 0 * AGR + m.getD 3 0 * BGG + m.getD 6 0 * CGB
  let Y := m.getD 1 0 * AGR + m.getD 4 0 * BGG + m.getD 7 0 * CGB
  let Z := m.getD 2 0 * AGR + m.getD 5 0 * BGG + m.getD 8 0 * CGB
  let xyzFlat := normalizeWhitePointToFlat (d.XW, d.YW, d.ZW) (X, Y, Z)
  let xyzBlack := compensateBlackPoint p (d.XB, d.YB, d.ZB) xyzFlat
  let xyzD65 := normalizeWhitePointToD65 (1, 1, 1) xyzBlack
  let srgb := matrixProduct srgbD65XyzToRgb xyzD65
  (sRGBTransferFunction p srgb.1 * 255,
   sRGBTransferFunction p srgb.2.1 * 255,
   sRGBTransferFunction p srgb.2.2 * 255)

/-- The Lab `g(x)` helper. -/
def labFnG (x : ℚ) : ℚ :=
  if 6/29 ≤ x then x * x * x else (108/841) * (x - 4/29)

/-- The Lab component `decode(value, high1, low2, high2)` helper. -/
def labDecodeComp (value high1 low2 high2 : ℚ) : ℚ :=
  low2 + value * (high2 - low2) / high1

/-- `LabCS.convertToRgb` producing the three rational channel values
(`sqrt(r) * 255` etc.); `maxVal = none` models the `false` flag of the
per-item path, `maxVal = some m` the bulk path at `m = 2^bits - 1`. -/
def labConvert (p : JsMath) (d : LabData) (maxVal : Option ℕ)
    (Ls0 as0 bs0 : ℚ) : ℚ × ℚ × ℚ :=
  let Ls := match maxVal with
    | some m => labDecodeComp Ls0 m 0 100
    | none => Ls0
  let as1 := match maxVal with
    | some m => labDecodeComp as0 m d.amin d.amax
    | none => as0
  let bs1 := match maxVal with
    | some m => labDecodeComp bs0 m d.bmin d.bmax
    | none => bs0
  let as2 := if d.amax < as1 then d.amax else if as1 < d.amin then d.amin else as1
  let bs2 := if d.bmax < bs1 then d.bmax else if bs1 < d.bmin then d.bmin else bs1
  let M := (Ls + 16) / 116
  let L := M + as2 / 500
  let N := M - bs2 / 200
  let X := d.XW * labFnG L
  let Y := d.YW * labFnG M
  let Z := d.ZW * labFnG N
  let r := if d.ZW < 1 then X * 3.1339 + Y * -1.6170 + Z * -0.4906
           else X * 3.2406 + Y * -1.5372 + Z * -0.4986
  let g := if d.ZW < 1 then X * -0.9785 + Y * 1.9160 + Z * 0.0333
           else X * -0.9689 + Y * 1.8758 + Z * 0.0415
  let b := if d.ZW < 1 then X * 0.0720 + Y * -0.2290 + Z * 1.4057
           else X * 0.0557 + Y * -0.2040 + Z * 1.0570
  (p.sqrt r * 255, p.sqrt g * 255, p.sqrt b * 255)

/-- The shared shape of every leaf `getRgbBuffer` loop: per pixel, read
`ncIn` integer samples, convert them to three rational channel values,
store them clamped, then advance the source by `ncIn` and the destination
by `3 + alpha01`. -/
def convLoop (ncIn : ℕ) (conv : List ℚ → ℚ × ℚ × ℚ) (src : List ℕ) :
    ℕ → ℕ → ℕ → ℕ → List ℕ → List ℕ
  | _, _, _, 0, d => d
  | so, q, a, Nat.succ c, d =>
    let xs := (List.range ncIn).map (fun j => ((src.getD (so + j) 0 : ℕ) : ℚ))
    let t := conv xs
    convLoop ncIn conv src (so + ncIn) (q + 3 + a) a c (set3q d q t.1 t.2.1 t.2.2)

/-- The polymorphic interface record one `ColorSpace` instance exposes:
`name`, `numComps`, `usesZeroToOneRange`, `isPassthrough`, `getRgbItem`,
`getRgbBuffer`, `getOutputLength`. -/
structure Sem where
  name : String
  ncOpt : Option ℕ
  u01 : Bool
  passthrough : ℕ → Bool
  item : List ℚ → ℕ → List ℕ → ℕ → Except Unit (List ℕ)
  buf : List ℕ → ℕ → ℕ → List ℕ → ℕ → ℕ → ℕ → Except Unit (List ℕ)
  outLen : ℕ → ℕ → Except Unit ℕ

/-- The loop of `IndexedCS.getRgbBuffer`: per pixel, one base
`getRgbBuffer` call on the lookup table at `sample * baseNumComps`,
advancing the destination by `outputDelta`. -/
def indexedLoopS
    (bb : List ℕ → ℕ → ℕ → List ℕ → ℕ → ℕ → ℕ → Except Unit (List ℕ))
    (nb delta a : ℕ) (lookup src : List ℕ) :
    ℕ → ℕ → ℕ → List ℕ → Except Unit (List ℕ)
  | _, _, 0, d => .ok d
  | so, doff, Nat.succ c, d =>
    (bb lookup (src.getD so 0 * nb) 1 d doff 8 a).bind (fun d2 =>
      indexedLoopS bb nb delta a lookup src (so + 1) (doff + delta) c d2)

/-- The staging loop of `AlternateCS.getRgbBuffer`: per pixel, scale the
samples, apply the tint function, then either store the tinted components
times 255 as bytes (`usesZeroToOneRange` bases) or delegate to the base
`getRgbItem` (all at consecutive positions `pos`, advancing by
`baseNumComps`). -/
def altLoopS (bitem : List ℚ → ℕ → List ℕ → ℕ → Except Unit (List ℕ))
    (tint : List ℚ → List ℚ) (n nb : ℕ) (scale : ℚ) (u01 : Bool)
    (src : List ℕ) : ℕ → ℕ → ℕ → List ℕ → Except Unit (List ℕ)
  | _, _, 0, buf => .ok buf
  | so, pos, Nat.succ c, buf =>
    let scaled := (List.range n).map (fun j => (src.getD (so + j) 0 : ℚ) * scale)
    let tinted := tint scaled
    if u01 then
      altLoopS bitem tint n nb scale u01 src (so + n) (pos + nb) c
        (writeQSeq buf pos ((List.range nb).map (fun j => tinted.getD j 0 * 255)))
    else
      (bitem tinted 0 buf pos).bind (fun buf2 =>
        altLoopS bitem tint n nb scale u01 src (so + n) (pos + nb) c buf2)

/-- The semantics of one constructed color-space instance: a direct
transcription of each subclass's methods.  The base-class defaults
(`getRgbItem` / `getRgbBuffer` / `getOutputLength` throwing `unreachable`,
`isPassthrough` false) appear in the `pattern` branch, the only variant
that does not override them. -/
def CS.sem (p : JsMath) : CS → Sem
  | .deviceGray =>
    { name := nmDeviceGray, ncOpt := some 1, u01 := true,
      passthrough := fun _ => false,
      item := fun src so d off =>
        .ok (set3q d off (src.getD so 0 * 255) (src.getD so 0 * 255)
              (src.getD so 0 * 255)),
      buf := fun src so count d off bits a =>
        .ok (convLoop 1
          (fun xs => (255 / ((2:ℚ)^bits - 1) * xs.getD 0 0,
                      255 / ((2:ℚ)^bits - 1) * xs.getD 0 0,
                      255 / ((2:ℚ)^bits - 1) * xs.getD 0 0))
          src so off a count d),
      outLen := fun n a => .ok (n * (3 + a)) }
  | .deviceRGB =>
    { name := nmDeviceRGB, ncOpt := some 3, u01 := true,
      passthrough := fun bits => bits == 8,
      item := fun src so d off =>
        .ok (set3q d off (src.getD so 0 * 255) (src.getD (so+1) 0 * 255)
              (src.getD (so+2) 0 * 255)),
      buf := fun src so count d off bits a =>
        if bits = 8 ∧ a = 0 then
          .ok (writeNatSeq d off ((src.drop so).take (count * 3)))
        else
          .ok (convLoop 3
            (fun xs => (255 / ((2:ℚ)^bits - 1) * xs.getD 0 0,
                        255 / ((2:ℚ)^bits - 1) * xs.getD 1 0,
                        255 / ((2:ℚ)^bits - 1) * xs.getD 2 0))
            src so off a count d),
      outLen := fun n a => .ok (n * (3 + a) / 3) }
  | .deviceCmyk =>
    { name := nmDeviceCMYK, ncOpt := some 4, u01 := true,
      passthrough := fun _ => false,
      item := fun src so d off =>
        .ok (let t := cmykConvert (src.getD so 0) (src.getD (so+1) 0)
               (src.getD (so+2) 0) (src.getD (so+3) 0)
             set3q d off t.1 t.2.1 t.2.2),
      buf := fun src so count d off bits a =>
        .ok (convLoop 4
          (fun xs => cmykConvert (xs.getD 0 0 / ((2:ℚ)^bits - 1))
            (xs.getD 1 0 / ((2:ℚ)^bits - 1))
            (xs.getD 2 0 / ((2:ℚ)^bits - 1))
            (xs.getD 3 0 / ((2:ℚ)^bits - 1)))
          src so off a count d),
      outLen := fun n a => .ok (ratIdx ((n : ℚ) / 4 * (3 + a))) }
  | .calGray _ YW _ G =>
    { name := nmCalGray, ncOpt := some 1, u01 := true,
      passthrough := fun _ => false,
      item := fun src so d off =>
        .ok (let v := calGrayConvert p YW G (src.getD so 0)
             set3q d off v v v),
      buf := fun src so count d off bits a =>
        .ok (convLoop 1
          (fun xs =>
            let v := calGrayConvert p YW G (xs.getD 0 0 / ((2:ℚ)^bits - 1))
            (v, v, v))
          src so off a count d),
      outLen := fun n a => .ok (n * (3 + a)) }
  | .calRGB dat =>
    { name := nmCalRGB, ncOpt := some 3, u01 := true,
      passthrough := fun _ => false,
      item := fun src so d off =>
        .ok (let t := calRGBConvert p dat (src.getD so 0) (src.getD (so+1) 0)
               (src.getD (so+2) 0)
             set3q d off t.1 t.2.1 t.2.2),
      buf := fun src so count d off bits a =>
        .ok (convLoop 3
          (fun xs => calRGBConvert p dat (xs.getD 0 0 / ((2:ℚ)^bits - 1))
            (xs.getD 1 0 / ((2:ℚ)^bits - 1)) (xs.getD 2 0 / ((2:ℚ)^bits - 1)))
          src so off a count d),
      outLen := fun n a => .ok (n * (3 + a) / 3) }
  | .lab dat =>
    { name := nmLab, ncOpt := some 3, u01 := false,
      passthrough := fun _ => false,
      item := fun src so d off =>
        .ok (let t := labConvert p dat none (src.getD so 0) (src.getD (so+1) 0)
               (src.getD (so+2) 0)
             set3q d off t.1 t.2.1 t.2.2),
      buf := fun src so count d off bits a =>
        .ok (convLoop 3
          (fun xs => labConvert p dat (some (2^bits - 1)) (xs.getD 0 0)
            (xs.getD 1 0) (xs.getD 2 0))
          src so off a count d),
      outLen := fun n a => .ok (n * (3 + a) / 3) }
  | .indexed base _ lk =>
    let bs := CS.sem p base
    { name := nmIndexed, ncOpt := some 1, u01 := true,
      passthrough := fun _ => false,
      item := fun src so d off =>
        bs.buf lk (ratIdx (src.getD so 0) * bs.ncOpt.getD 0) 1 d off 8 0,
      buf := fun src so count d off _bits a =>
        (bs.outLen (bs.ncOpt.getD 0) a).bind (fun delta =>
          indexedLoopS bs.buf (bs.ncOpt.getD 0) delta a lk src so off count d),
      outLen := fun n a => bs.outLen (n * bs.ncOpt.getD 0) a }
  | .alternate n base tint =>
    let bs := CS.sem p base
    { name := nmAlternate, ncOpt := some n, u01 := true,
      passthrough := fun _ => false,
      item := fun src so d off => bs.item (tint (src.drop so)) 0 d off,
      buf := fun src so count d off bits a =>
        let scale : ℚ := 1 / ((2:ℚ)^bits - 1)
        let nb := bs.ncOpt.getD 0
        if (bs.passthrough 8 || !bs.u01) && a == 0 then
          altLoopS bs.item tint n nb scale bs.u01 src so off count d
        else
          (altLoopS bs.item tint n nb scale bs.u01 src so 0 count
              (List.replicate (nb * count) 0)).bind (fun bbuf =>
            bs.buf bbuf 0 count d off 8 a),
      outLen := fun len a => bs.outLen (len * bs.ncOpt.getD 0 / n) a }
  | .pattern _ =>
    { name := nmPattern, ncOpt := none, u01 := true,
      passthrough := fun _ => false,
      item := fun _ _ _ _ => .error (),
      buf := fun _ _ _ _ _ _ _ => .error (),
      outLen := fun _ _ => .error () }

/-- The copy loop at the end of `ColorSpace.fillRgb` (no resizing): expand
`rgbBuf` into `dest`, three bytes per pixel then `alpha01` skipped slots. -/
def copyExpand (rgbBuf : List ℕ) : ℕ → ℕ → ℕ → ℕ → List ℕ → List ℕ
  | _, _, _, 0, d => d
  | rp, dp, a, Nat.succ c, d =>
    copyExpand rgbBuf (rp + 3) (dp + 3 + a) a c
      (set3n d dp (rgbBuf.getD rp 0) (rgbBuf.getD (rp+1) 0) (rgbBuf.getD (rp+2) 0))

/-- The color-map application loop of `ColorSpace.fillRgb`: per source
sample, copy three bytes out of the color map at `sample * 3`. -/
def mapLoop (cmap comps : List ℕ) : ℕ → ℕ → ℕ → ℕ → List ℕ → List ℕ
  | _, _, _, 0, d => d
  | i, dp, a, Nat.succ c, d =>
    mapLoop cmap comps (i + 1) (dp + 3 + a) a c
      (set3n d dp (cmap.getD (comps.getD i 0 * 3) 0)
        (cmap.getD (comps.getD i 0 * 3 + 1) 0)
        (cmap.getD (comps.getD i 0 * 3 + 2) 0))

/-- The inner column loop of `resizeRgbImage` for one output row:
`oldIndex = py + xScaled[j]`, three byte copies, then the `alpha01` skip. -/
def resizeRow (src : List ℕ) (xs : ℕ → ℕ) (py a : ℕ) :
    ℕ → ℕ → ℕ → List ℕ → List ℕ
  | _, 0, _, d => d
  | j, Nat.succ r, ni, d =>
    resizeRow src xs py a (j + 1) r (ni + 3 + a)
      (set3n d ni (src.getD (py + xs j) 0) (src.getD (py + xs j + 1) 0)
        (src.getD (py + xs j + 2) 0))

/-- The outer row loop of `resizeRgbImage`:
`py = floor(i * yRatio) * w1Scanline`. -/
def resizeRows (src : List ℕ) (xs : ℕ → ℕ) (yR : ℚ) (w1S w2 a : ℕ) :
    ℕ → ℕ → ℕ → List ℕ → List ℕ
  | _, 0, _, d => d
  | i, Nat.succ r, ni, d =>
    resizeRows src xs yR w1S w2 a (i + 1) r (ni + w2 * (3 + a))
      (resizeRow src xs (ratIdx ((i : ℚ) * yR) * w1S) a 0 w2 ni d)

/-- `resizeRgbImage(src, dest, w1, h1, w2, h2, alpha01)`: nearest-neighbor
resize with the entry normalization of `alpha01` and the precomputed
`xScaled` table.  `xScaled` is a `Uint16Array`, so each stored scanline
offset `floor(j * xRatio) * 3` is reduced modulo `2^16`. -/
def resizeRgbImage (src dest : List ℕ) (w1 h1 w2 h2 a0 : ℕ) : List ℕ :=
  let a := if a0 = 1 then 1 else 0
  let xR : ℚ := (w1 : ℚ) / (w2 : ℚ)
  let yR : ℚ := (h1 : ℚ) / (h2 : ℚ)
  resizeRows src (fun j => (ratIdx ((j : ℚ) * xR) * 3) % 65536) yR (w1 * 3)
    w2 a 0 h2 0 dest

/-- `ColorSpace.fillRgb(dest, originalWidth, originalHeight, width, height,
actualHeight, bpc, comps, alpha01)`, written against the instance
interface `Sem`.  The three branches are passthrough, the one-component
color-map optimization, and the direct conversion; a temporary `rgbBuf` is
then resized or expanded into `dest`. -/
def fillRgbS (s : Sem) (dest : List ℕ) (origW origH width height actualH bpc : ℕ)
    (comps : List ℕ) (a : ℕ) : Except Unit (List ℕ) :=
  let count := origW * origH
  let numComponentColors := 2^bpc
  let needsResizing := origH ≠ height ∨ origW ≠ width
  if s.passthrough bpc then
    if needsResizing then
      .ok (resizeRgbImage comps dest origW origH width height a)
    else
      .ok (copyExpand comps 0 0 a (width * actualH) dest)
  else if s.ncOpt = some 1 ∧ numComponentColors < count ∧
      s.name ≠ nmDeviceGray ∧ s.name ≠ nmDeviceRGB then
    let allColors := (List.range numComponentColors).map
      (fun i => if bpc ≤ 8 then i % 256 else i % 65536)
    (s.buf allColors 0 numComponentColors
        (List.replicate (numComponentColors * 3) 0) 0 bpc 0).bind (fun cmap =>
      if needsResizing then
        .ok (resizeRgbImage
          (mapLoop cmap comps 0 0 0 count (List.replicate (count * 3) 0))
          dest origW origH width height a)
      else
        .ok (mapLoop cmap comps 0 0 a count dest))
  else
    if needsResizing then
      (s.buf comps 0 count (List.replicate (count * 3) 0) 0 bpc 0).bind
        (fun rgbBuf =>
          .ok (resizeRgbImage rgbBuf dest origW origH width height a))
    else
      s.buf comps 0 (width * actualH) dest 0 bpc a

/-- The pair check of the static `ColorSpace.isDefaultDecode` loop:
`decode[i] !== 0 || decode[i+1] !== 1` fails the map.  (An odd trailing
element compares `undefined !== 1`, which also fails; that branch is
unreachable from `isDefaultDecode`, which only enters the loop on arrays
of even length `2n`.) -/
def decodePairsDefault : List ℚ → Bool
  | [] => true
  | [_] => false
  | x :: y :: rest => if x ≠ 0 ∨ y ≠ 1 then false else decodePairsDefault rest

/-- The static `ColorSpace.isDefaultDecode(decode, n)` helper; `none`
models a missing / non-array decode map. -/
def ColorSpace.isDefaultDecode (decode : Option (List ℚ)) (n : ℕ) : Bool :=
  match decode with
  | none => true
  | some d =>
    if n * 2 ≠ d.length then true
    else decodePairsDefault d

/-- The form of a lookup-table argument received by the `IndexedCS`
constructor: a byte stream, a text string (one code unit per byte), an
already materialized byte array, or anything else. -/
inductive LookupArg where
  | streamL (bytes : List ℕ) : LookupArg
  | textL (codes : List ℕ) : LookupArg
  | uint8L (arr : List ℕ) : LookupArg
  | otherL : LookupArg

/-- The lookup-table ingestion of the `IndexedCS` constructor: a stream is
drained for at most `baseNumComps * highVal` bytes into a zeroed buffer of
exactly that length; a string is read code unit by code unit (wrapped to a
byte, missing positions read as 0) for exactly that length; a byte array
is stored as is; anything else throws `FormatError`. -/
def mkLookup (baseNumComps highVal : ℕ) (lookup : LookupArg) :
    Except Unit (List ℕ) :=
  let length := baseNumComps * highVal
  match lookup with
  | .streamL bs =>
    .ok (writeNatSeq (List.replicate length 0) 0
      ((bs.take length).map (fun v => v % 256)))
  | .textL cs =>
    .ok ((List.range length).map (fun i => cs.getD i 0 % 256))
  | .uint8L arr => .ok arr
  | .otherL => .error ()

/-- The `IndexedCS` constructor: ingest the lookup table and build the
instance (the stored `highVal` is the already incremented hival). -/
def mkIndexed (base : CS) (highVal : ℕ) (lookup : LookupArg) :
    Except Unit CS :=
  (mkLookup base.nc highVal lookup).bind (fun lk =>
    .ok (.indexed base highVal lk))

/-- The `CalGrayCS` constructor: required white point with `YW = 1`,
`XW, ZW ≥ 0`; negative black point silently reset; gamma below 1 (or a
falsy gamma argument) reset to 1. -/
def mkCalGray (whitePoint _blackPoint : Option (List ℚ)) (gamma : Option ℚ) :
    Except Unit CS :=
  match whitePoint with
  | none => .error ()
  | some wp =>
    let g0 : ℚ := match gamma with
      | none => 1
      | some g => if g = 0 then 1 else g
    let XW := wp.getD 0 0
    let YW := wp.getD 1 0
    let ZW := wp.getD 2 0
    if XW < 0 ∨ ZW < 0 ∨ YW ≠ 1 then .error ()
    else .ok (.calGray XW YW ZW (if g0 < 1 then 1 else g0))

/-- The `CalRGBCS` constructor: required white point with `YW = 1`,
`XW, ZW ≥ 0`; black point with any negative component reset to zeros; any
negative gamma component resets the gamma triple to ones; missing gamma
and matrix default to ones / identity. -/
def mkCalRGB (whitePoint blackPoint gamma matrix : Option (List ℚ)) :
    Except Unit CS :=
  match whitePoint with
  | none => .error ()
  | some wp =>
    let bp := blackPoint.getD [0, 0, 0]
    let g := gamma.getD [1, 1, 1]
    let m := matrix.getD [1, 0, 0, 0, 1, 0, 0, 0, 1]
    let XW := wp.getD 0 0
    let YW := wp.getD 1 0
    let ZW := wp.getD 2 0
    let XB := bp.getD 0 0
    let YB := bp.getD 1 0
    let ZB := bp.getD 2 0
    let GR := g.getD 0 0
    let GG := g.getD 1 0
    let GB := g.getD 2 0
    if XW < 0 ∨ ZW < 0 ∨ YW ≠ 1 then .error ()
    else
      let bpOK := ¬ (XB < 0 ∨ YB < 0 ∨ ZB < 0)
      let gOK := ¬ (GR < 0 ∨ GG < 0 ∨ GB < 0)
      .ok (.calRGB
        { XW := XW, YW := YW, ZW := ZW,
          XB := if bpOK then XB else 0,
          YB := if bpOK then YB else 0,
          ZB := if bpOK then ZB else 0,
          GR := if gOK then GR else 1,
          GG := if gOK then GG else 1,
          GB := if gOK then GB else 1,
          mat := m })

/-- The `LabCS` constructor: required white point with `YW = 1`,
`XW, ZW ≥ 0`; black point defaulted (and unused by conversion); an
inverted range is reset to the default `[-100, 100, -100, 100]`. -/
def mkLab (whitePoint _blackPoint range : Option (List ℚ)) :
    Except Unit CS :=
  match whitePoint with
  | none => .error ()
  | some wp =>
    let r := range.getD [-100, 100, -100, 100]
    let XW := wp.getD 0 0
    let YW := wp.getD 1 0
    let ZW := wp.getD 2 0
    let amin := r.getD 0 0
    let amax := r.getD 1 0
    let bmin := r.getD 2 0
    let bmax := r.getD 3 0
    if XW < 0 ∨ ZW < 0 ∨ YW ≠ 1 then .error ()
    else if amax < amin ∨ bmax < bmin then
      .ok (.lab { XW := XW, YW := YW, ZW := ZW,
                  amin := -100, amax := 100, bmin := -100, bmax := 100 })
    else
      .ok (.lab { XW := XW, YW := YW, ZW := ZW,
                  amin := amin, amax := amax, bmin := bmin, bmax := bmax })

/-- The intermediate representation produced by `ColorSpace.parseToIR` and
consumed by `ColorSpace.fromIR`. -/
inductive IR where
  | dGray : IR
  | dRgb : IR
  | dCmyk : IR
  | calGrayIR (wp bp : Option (List ℚ)) (g : Option ℚ) : IR
  | calRgbIR (wp bp g m : Option (List ℚ)) : IR
  | patternIR (base : Option IR) : IR
  | indexedIR (base : IR) (hiVal : ℕ) (lookup : LookupArg) : IR
  | altIRc (n : ℕ) (alt : IR) (tint : List ℚ → List ℚ) : IR
  | labIR (wp bp range : Option (List ℚ)) : IR

/-- `ColorSpace.fromIR`: materialize an instance from the IR by trivial
dispatch on its tag, running each variant's constructor. -/
def fromIR : IR → Except Unit CS
  | .dGray => .ok .deviceGray
  | .dRgb => .ok .deviceRGB
  | .dCmyk => .ok .deviceCmyk
  | .calGrayIR wp bp g => mkCalGray wp bp g
  | .calRgbIR wp bp g m => mkCalRGB wp bp g m
  | .patternIR none => .ok (.pattern none)
  | .patternIR (some b) => (fromIR b).bind (fun bc => .ok (.pattern (some bc)))
  | .indexedIR b hi lk => (fromIR b).bind (fun bc => mkIndexed bc hi lk)
  | .altIRc n alt t => (fromIR alt).bind (fun ac => .ok (.alternate n ac t))
  | .labIR wp bp r => mkLab wp bp r

/-- Dictionary key and mode-name string constants used by the parser. -/
def kG : String := "G"

/-- Short name for DeviceRGB. -/
def kRGB : String := "RGB"

/-- Short name for DeviceCMYK. -/
def kCMYK : String := "CMYK"

/-- Short name for Indexed. -/
def kI : String := "I"

/-- Mode name of ICCBased arrays. -/
def kICCBased : String := "ICCBased"

/-- Mode name of Separation arrays. -/
def kSeparation : String := "Separation"

/-- Mode name of DeviceN arrays. -/
def kDeviceN : String := "DeviceN"

/-- Key of the resource color-space sub-dictionary. -/
def kColorSpace : String := "ColorSpace"

/-- Key of the white point entry. -/
def kWhitePoint : String := "WhitePoint"

/-- Key of the black point entry. -/
def kBlackPoint : String := "BlackPoint"

/-- Key of the gamma entry. -/
def kGamma : String := "Gamma"

/-- Key of the matrix entry. -/
def kMatrix : String := "Matrix"

/-- Key of the Lab range entry. -/
def kRange : String := "Range"

/-- Key of the ICCBased component count. -/
def kN : String := "N"

/-- Key of the ICCBased alternate color space. -/
def kAlternate : String := "Alternate"

/-- The fragment of the PDF object model the parser consumes: names,
numbers, dictionaries, streams (with their dictionary and content bytes),
arrays, strings, indirect references, and null. -/
inductive PdfObj where
  | nameO (s : String) : PdfObj
  | numO (q : ℚ) : PdfObj
  | dictO (entries : List (String × PdfObj)) : PdfObj
  | streamO (sdict : List (String × PdfObj)) (bytes : List ℕ) : PdfObj
  | arrO (elems : List PdfObj) : PdfObj
  | textO (codes : List ℕ) : PdfObj
  | refO (i : ℕ) : PdfObj
  | nullO : PdfObj

/-- `Dict.get(key)`: first entry with the given key, if any. -/
def dictGet (es : List (String × PdfObj)) (k : String) : Option PdfObj :=
  match es.find? (fun e => e.1 == k) with
  | some e => some e.2
  | none => none

/-- JavaScript truthiness of a PDF object (`undefined` is represented by
an absent `Option`): null, the number 0 and the empty string are falsy. -/
def truthy : PdfObj → Bool
  | .nullO => false
  | .numO q => decide (q ≠ 0)
  | .textO [] => false
  | _ => true

/-- `xref.fetchIfRef(obj)`: resolve an indirect reference through the xref
table (modelled as a total map producing non-reference objects). -/
def fetchIfRef (xref : ℕ → PdfObj) : PdfObj → PdfObj
  | .refO i => xref i
  | o => o

/-- `Dict.getArray(key)` restricted to numeric arrays: fetch the value,
and if it is an array return its elements as rationals (non-numeric
elements read as 0); otherwise null. -/
def getArrayQ (xref : ℕ → PdfObj) (es : List (String × PdfObj)) (k : String) :
    Option (List ℚ) :=
  match (dictGet es k).map (fetchIfRef xref) with
  | some (.arrO l) =>
    some (l.map (fun e => match fetchIfRef xref e with
      | .numO q => q
      | _ => 0))
  | _ => none

/-- `Dict.get(key)` restricted to a numeric value, as used for the CalGray
gamma and the Indexed hival. -/
def getNumQ (xref : ℕ → PdfObj) (es : List (String × PdfObj)) (k : String) :
    Option ℚ :=
  match (dictGet es k).map (fetchIfRef xref) with
  | some (.numO q) => some q
  | _ => none

/-- The `===` comparison between `fromIR(altIR).numComps` and the raw `N`
entry of an ICCBased stream dictionary (`null === N` and comparisons with
a non-numeric `N` are false). -/
def ncEqNum (nc : Option ℕ) (o : Option PdfObj) : Bool :=
  match nc, o with
  | some k, some (.numO q) => decide ((k : ℚ) = q)
  | _, _ => false

/-- The `===` comparison between the raw `N` dictionary entry and a number
literal (`undefined === k` and non-numeric comparisons are false). -/
def nObjIs (o : Option PdfObj) (k : ℚ) : Bool :=
  match o with
  | some (.numO q) => decide (q = k)
  | _ => false

/-- The device-space fallback of the ICCBased arm, keyed only on `N`
(`N ∈ {1, 3, 4}`); any other `N` falls out of the switch and hits the
final `FormatError`. -/
def iccFallback (nObj : Option PdfObj) : Except Unit IR :=
  if nObjIs nObj 1 then .ok .dGray
  else if nObjIs nObj 3 then .ok .dRgb
  else if nObjIs nObj 4 then .ok .dCmyk
  else .error ()

mutual

/-- `ColorSpace.parseToIR(cs, xref, res, pdfFunctionFactory)`.  The `fuel`
argument bounds the recursion depth (the source can recurse through the
resource dictionary and through sub-descriptors); every claim instantiates
it with a sufficient concrete value.  `FormatError` aborts (and a
malformed shape that would crash the JavaScript — for example a
non-stream ICCBased operand — is also modelled as an aborted parse). -/
def parseToIR (xref : ℕ → PdfObj) (res : PdfObj)
    (factory : PdfObj → List ℚ → List ℚ) :
    ℕ → PdfObj → Except Unit IR
  | 0, _ => .error ()
  | Nat.succ fuel, cs0 =>
    let cs := fetchIfRef xref cs0
    match cs with
    | .nameO n =>
      if n == nmDeviceGray || n == kG then .ok .dGray
      else if n == nmDeviceRGB || n == kRGB then .ok .dRgb
      else if n == nmDeviceCMYK || n == kCMYK then .ok .dCmyk
      else if n == nmPattern then .ok (.patternIR none)
      else
        match res with
        | .dictO rentries =>
          match dictGet rentries kColorSpace with
          | some (.dictO csEntries) =>
            match dictGet csEntries n with
            | some resCS =>
              if truthy resCS then
                match resCS with
                | .nameO _ => parseToIR xref res factory fuel resCS
                | _ => parseArrIR xref res factory fuel resCS
              else .error ()
            | none => .error ()
          | _ => .error ()
        | _ => .error ()
    | _ => parseArrIR xref res factory fuel cs

/-- The array branch of `parseToIR` (also reached from the name branch
after a resource-dictionary substitution), dispatching on the resolved
mode name `cs[0]`; any non-array object falls to the final
`FormatError`. -/
def parseArrIR (xref : ℕ → PdfObj) (res : PdfObj)
    (factory : PdfObj → List ℚ → List ℚ) :
    ℕ → PdfObj → Except Unit IR
  | 0, _ => .error ()
  | Nat.succ fuel, cs =>
    match cs with
    | .arrO elems =>
      match fetchIfRef xref (elems.getD 0 .nullO) with
      | .nameO mode =>
        if mode == nmDeviceGray || mode == kG then .ok .dGray
        else if mode == nmDeviceRGB || mode == kRGB then .ok .dRgb
        else if mode == nmDeviceCMYK || mode == kCMYK then .ok .dCmyk
        else if mode == nmCalGray then
          match fetchIfRef xref (elems.getD 1 .nullO) with
          | .dictO pe =>
            .ok (.calGrayIR (getArrayQ xref pe kWhitePoint)
              (getArrayQ xref pe kBlackPoint) (getNumQ xref pe kGamma))
          | _ => .error ()
        else if mode == nmCalRGB then
          match fetchIfRef xref (elems.getD 1 .nullO) with
          | .dictO pe =>
            .ok (.calRgbIR (getArrayQ xref pe kWhitePoint)
              (getArrayQ xref pe kBlackPoint) (getArrayQ xref pe kGamma)
              (getArrayQ xref pe kMatrix))
          | _ => .error ()
        else if mode == kICCBased then
          match fetchIfRef xref (elems.getD 1 .nullO) with
          | .streamO sd _ =>
            let nObj := dictGet sd kN
            match dictGet sd kAlternate with
            | some altO =>
              if truthy altO then
                (parseToIR xref res factory fuel altO).bind (fun altIR =>
                  (fromIR altIR).bind (fun altCS =>
                    if ncEqNum altCS.ncOpt nObj then .ok altIR
                    else iccFallback nObj))
              else iccFallback nObj
            | none => iccFallback nObj
          | _ => .error ()
        else if mode == nmPattern then
          let b := elems.getD 1 .nullO
          if truthy b then
            (parseToIR xref res factory fuel b).bind (fun bir =>
              .ok (.patternIR (some bir)))
          else .ok (.patternIR none)
        else if mode == nmIndexed || mode == kI then
          (parseToIR xref res factory fuel (elems.getD 1 .nullO)).bind
            (fun baseIR =>
              match fetchIfRef xref (elems.getD 2 .nullO) with
              | .numO q =>
                let lk : LookupArg :=
                  match fetchIfRef xref (elems.getD 3 .nullO) with
                  | .streamO _ bytes => .uint8L bytes
                  | .textO codes => .textL codes
                  | _ => .otherL
                .ok (.indexedIR baseIR ((Int.floor q).toNat + 1) lk)
              | _ => .error ())
        else if mode == kSeparation || mode == kDeviceN then
          let nameObj := fetchIfRef xref (elems.getD 1 .nullO)
          let numComps := match nameObj with
            | .arrO l => l.length
            | _ => 1
          (parseToIR xref res factory fuel (elems.getD 2 .nullO)).bind
            (fun altIR =>
              .ok (.altIRc numComps altIR
                (factory (fetchIfRef xref (elems.getD 3 .nullO)))))
        else if mode == nmLab then
          match fetchIfRef xref (elems.getD 1 .nullO) with
          | .dictO pe =>
            .ok (.labIR (getArrayQ xref pe kWhitePoint)
              (getArrayQ xref pe kBlackPoint) (getArrayQ xref pe kRange))
          | _ => .error ()
        else .error ()
      | _ => .error ()
    | _ => .error ()

end

/-- The result buffer of a conversion, with the unmodified destination on
an aborted conversion (used to state write properties uniformly). -/
def okD (r : Except Unit (List ℕ)) (d : List ℕ) : List ℕ :=
  match r with
  | .ok d2 => d2
  | .error _ => d

/-- The default decode map `[0, 1, 0, 1, …]` with `n` component pairs. -/
def defaultDecodeMap : ℕ → List ℚ
  | 0 => []
  | Nat.succ n => 0 :: 1 :: defaultDecodeMap n

/-- Normal form of every bulk conversion loop: write a list of pixel byte
triples at consecutive offsets `off, off + stride, …` (three byte stores
then `stride - 3` skipped slots per pixel). -/
def pixWrites (stride : ℕ) : List (ℕ × ℕ × ℕ) → ℕ → List ℕ → List ℕ
  | [], _, d => d
  | t :: ts, off, d => pixWrites stride ts (off + stride) (set3n d off t.1 t.2.1 t.2.2)

/-- Clamped-store conversion of a rational channel triple. -/
def tcT (t : ℚ × ℚ × ℚ) : ℕ × ℕ × ℕ :=
  (toUint8Clamp t.1, toUint8Clamp t.2.1, toUint8Clamp t.2.2)

/-- The rational sample vector a leaf conversion reads for one pixel. -/
def vecAt (src : List ℕ) (t nc : ℕ) : List ℚ :=
  (List.range nc).map (fun j => ((src.getD (t + j) 0 : ℕ) : ℚ))

/-- The scaled sample vector `AlternateCS.getRgbBuffer` feeds to the tint
function for the pixel whose samples start at `so`. -/
def scaledVec (n : ℕ) (scale : ℚ) (src : List ℕ) (so : ℕ) : List ℚ :=
  (List.range n).map (fun j => (src.getD (so + j) 0 : ℚ) * scale)

/-- The flat staged byte buffer `AlternateCS.getRgbBuffer` builds on the
`usesZeroToOneRange` path: per pixel, the `baseNumComps` clamp-rounded
bytes of the tinted components times 255. -/
def stagedPix (tint : List ℚ → List ℚ) (n nb : ℕ) (scale : ℚ)
    (src : List ℕ) : ℕ → ℕ → List ℕ
  | _, 0 => []
  | so, Nat.succ c =>
    (List.range nb).map
        (fun j => toUint8Clamp ((tint (scaledVec n scale src so)).getD j 0 * 255))
      ++ stagedPix tint n nb scale src (so + n) c

/-- The per-pixel byte triple of the exact `LabCS` item conversion
(`base(tint(·))` through `getRgbItem`) on a tinted component list. -/
def labPix (p : JsMath) (dat : LabData) (ts : List ℚ) : ℕ × ℕ × ℕ :=
  tcT (labConvert p dat none (ts.getD 0 0) (ts.getD 1 0) (ts.getD 2 0))

/-- One pixel's staged bytes on the `usesZeroToOneRange` path of
`AlternateCS.getRgbBuffer`: the `baseNumComps` clamp-rounded bytes of the
tinted components times 255, for the pixel whose samples start at `t`. -/
def stagedRow (tint : List ℚ → List ℚ) (n nb : ℕ) (scale : ℚ)
    (src : List ℕ) (t : ℕ) : List ℕ :=
  (List.range nb).map
    (fun j => toUint8Clamp ((tint (scaledVec n scale src t)).getD j 0 * 255))

/-- Component selector of a byte triple. -/
def comp3 (t : ℕ × ℕ × ℕ) : ℕ → ℕ
  | 0 => t.1
  | 1 => t.2.1
  | _ => t.2.2


/-- Source raster of the C9 counterexample: 21847 pixels in one row,
zeros except the last pixel, whose bytes are `9, 9, 9`. -/
def cexSrc9 : List ℕ := List.replicate 65538 0 ++ [9, 9, 9]


/-- Destination buffer of the C9 counterexample. -/
def cexDest9 : List ℕ := List.replicate 65541 7


/-- The tint function of the C2 counterexample: a constant Separation
tint whose first output component `1/510` is not a multiple of `1/255`. -/
def cexTint : List ℚ → List ℚ := fun _ => [1/510, 0, 0, 0]


/-- Xref table with no objects, for concrete parser runs. -/
def xrefNull : ℕ → PdfObj := fun _ => .nullO


/-- A trivial tint-function factory for concrete parser runs. -/
def factoryId : PdfObj → List ℚ → List ℚ := fun _ => id


/-- Write evolution invariant: every position of the output buffer is
either unchanged from the input buffer or holds a byte value. -/
def Mono (d d2 : List ℕ) : Prop :=
  ∀ i, d2.getD i 0 = d.getD i 0 ∨ d2.getD i 0 ≤ 255


/-- Well-formed sample window: the conversion reads `count * nc` samples
starting at `so`, all present and below `2^bits`. -/
def srcOKn (bits nc : ℕ) (src : List ℕ) (so count : ℕ) : Prop :=
  so + count * nc ≤ src.length ∧
  ∀ t, so ≤ t → t < so + count * nc → src.getD t 0 < 2^bits


/-- Raster-coverage side conditions under which the bulk conversion is
pixelwise: embedded Indexed palettes cover the full sample domain of
their bit depth with a fully sized byte lookup, embedded Alternate
spaces have at least one colorant, and Pattern (which has no pixel
conversion) is excluded. -/
def coveredB : CS → ℕ → Prop
  | .indexed base hi lk, bits =>
    2^bits ≤ hi ∧ lk.length = base.nc * hi ∧ (∀ b ∈ lk, b < 2^8) ∧
    coveredB base 8
  | .alternate n base _, _ => 1 ≤ n ∧ coveredB base 8
  | .pattern _, _ => False
  | _, _ => True


/-- No embedded Alternate space sits over a base that does not use the
zero-to-one range (the configuration whose staged output depends on
`alpha01`). -/
def noBadAlt : CS → Prop
  | .indexed base _ _ => noBadAlt base
  | .alternate _ base _ => base.u01 = true ∧ noBadAlt base
  | _ => True


/-- The pixel triples a pixelwise conversion produces: sample vectors are
read at `so, so + nc, …`. -/
def pixList (B : List ℕ → ℕ → ℕ × ℕ × ℕ) (src : List ℕ) (so nc count : ℕ) :
    List (ℕ × ℕ × ℕ) :=
  (List.range count).map (fun i => B src (so + i * nc))


/-- A bulk conversion is pixelwise with per-pixel byte function `B` at the
given bit depth and alpha stride. -/
def PointP (s : Sem) (bits a nc : ℕ) (B : List ℕ → ℕ → ℕ × ℕ × ℕ) : Prop :=
  ∀ (src : List ℕ) (so count : ℕ) (d : List ℕ) (off : ℕ),
    srcOKn bits nc src so count →
    s.buf src so count d off bits a
      = .ok (pixWrites (3 + a) (pixList B src so nc count) off d)


/-- The per-pixel byte function only reads its `nc` samples. -/
def BvalP (B : List ℕ → ℕ → ℕ × ℕ × ℕ) (nc : ℕ) : Prop :=
  ∀ (src : List ℕ) (so : ℕ) (src2 : List ℕ) (so2 : ℕ),
    (∀ j, j < nc → src.getD (so + j) 0 = src2.getD (so2 + j) 0) →
    B src so = B src2 so2


/-- The per-pixel byte function produces bytes. -/
def BbndP (B : List ℕ → ℕ → ℕ × ℕ × ℕ) : Prop :=
  ∀ (src : List ℕ) (so : ℕ),
    (B src so).1 ≤ 255 ∧ (B src so).2.1 ≤ 255 ∧ (B src so).2.2 ≤ 255


/-- Basic facts about the clamped byte store. -/
theorem toUint8Clamp_le (x : ℚ) : toUint8Clamp x ≤ 255 := by
  unfold toUint8Clamp
  split
  · omega
  split
  · omega
  rename_i h0 h255
  have hx : x < 255 := lt_of_not_le h255
  have hfl : Int.floor x ≤ 254 := by
    have : Int.floor x < 255 := by
      have := Int.floor_le x
      have h2 : (Int.floor x : ℚ) < 255 := lt_of_le_of_lt this hx
      exact_mod_cast h2
    omega
  have hfn : (Int.floor x).toNat ≤ 254 := by omega
  split
  · omega
  split
  · rename_i hfr _
    omega
  split <;> omega

/-- Clamping an already clamped byte is the identity. -/
theorem clamp255_toUint8Clamp (x : ℚ) : clamp255 (toUint8Clamp x) = toUint8Clamp x := by
  have := toUint8Clamp_le x
  simp [clamp255, Nat.min_eq_left this]

/-- On a natural number, the clamped store is `min · 255`. -/
theorem toUint8Clamp_natCast (v : ℕ) : toUint8Clamp (v : ℚ) = clamp255 v := by
  unfold toUint8Clamp clamp255
  split
  · rename_i h
    have hv : (v : ℚ) = 0 := le_antisymm h (by positivity)
    have : v = 0 := by exact_mod_cast hv
    omega
  split
  · rename_i _ h
    have : (255:ℚ) ≤ v := h
    have hv : 255 ≤ v := by exact_mod_cast this
    omega
  rename_i h0 h255
  have hv255 : v < 255 := by
    by_contra hc
    exact h255 (by exact_mod_cast Nat.le_of_not_lt hc)
  have hfl : Int.floor ((v:ℚ)) = (v : ℤ) := by
    exact_mod_cast Int.floor_natCast v
  simp only [hfl]
  have hfrac : (v : ℚ) - ((v : ℤ) : ℚ) = 0 := by push_cast; ring
  rw [hfrac]
  norm_num
  omega

/-- Positional description of a single list store. -/
theorem getD_set_split (l : List ℕ) (i j v : ℕ) :
    (l.set i v).getD j 0 = if j = i ∧ i < l.length then v else l.getD j 0 := by
  simp only [List.getD_eq_getElem?_getD, List.getElem?_set]
  by_cases h : i = j
  · subst h
    by_cases hl : i < l.length
    · simp [hl]
    · simp [hl, List.getElem?_eq_none (Nat.le_of_not_lt hl)]
  · have hne : ¬ (j = i ∧ i < l.length) := by
      intro hc
      exact h hc.1.symm
    simp [h, hne]

/-- `set3n` preserves the buffer length. -/
theorem set3n_length (d : List ℕ) (i r g b : ℕ) :
    (set3n d i r g b).length = d.length := by
  simp [set3n]

/-- `set3n` leaves positions below `i` unchanged. -/
theorem set3n_getD_lt (d : List ℕ) (i r g b m : ℕ) (hm : m < i) :
    (set3n d i r g b).getD m 0 = d.getD m 0 := by
  simp only [set3n, getD_set_split, List.length_set]
  have h1 : ¬ (m = i) := by omega
  have h2 : ¬ (m = i + 1) := by omega
  have h3 : ¬ (m = i + 2) := by omega
  simp [h1, h2, h3]

/-- `set3n` leaves positions at or above `i + 3` unchanged. -/
theorem set3n_getD_ge (d : List ℕ) (i r g b m : ℕ) (hm : i + 3 ≤ m) :
    (set3n d i r g b).getD m 0 = d.getD m 0 := by
  simp only [set3n, getD_set_split, List.length_set]
  have h1 : ¬ (m = i) := by omega
  have h2 : ¬ (m = i + 1) := by omega
  have h3 : ¬ (m = i + 2) := by omega
  simp [h1, h2, h3]

/-- `set3n` writes the clamped components at `i`, `i+1`, `i+2`. -/
theorem set3n_getD_at (d : List ℕ) (i r g b u : ℕ) (hu : u < 3)
    (hl : i + u < d.length) :
    (set3n d i r g b).getD (i + u) 0 = clamp255 (comp3 (r, g, b) u) := by
  interval_cases u <;>
    simp_all [set3n, getD_set_split, List.length_set, comp3]

/-- `pixWrites` preserves the buffer length. -/
theorem pixWrites_length (stride : ℕ) (ts : List (ℕ × ℕ × ℕ)) (off : ℕ)
    (d : List ℕ) : (pixWrites stride ts off d).length = d.length := by
  induction ts generalizing off d with
  | nil => rfl
  | cons t ts ih => simp [pixWrites, ih, set3n_length]

/-- `pixWrites` leaves positions below `off` unchanged. -/
theorem pixWrites_getD_lt (stride : ℕ) (ts : List (ℕ × ℕ × ℕ)) (off : ℕ)
    (d : List ℕ) (m : ℕ) (hm : m < off) :
    (pixWrites stride ts off d).getD m 0 = d.getD m 0 := by
  induction ts generalizing off d with
  | nil => rfl
  | cons t ts ih =>
    rw [pixWrites, ih _ _ (by omega), set3n_getD_lt _ _ _ _ _ _ hm]

/-- Positional description of `pixWrites`: pixel `c`, component `u`. -/
theorem pixWrites_getD_at (stride : ℕ) (h3 : 3 ≤ stride)
    (ts : List (ℕ × ℕ × ℕ)) (off : ℕ) (d : List ℕ) (c u : ℕ)
    (hc : c < ts.length) (hu : u < 3)
    (hl : off + c * stride + u < d.length) :
    (pixWrites stride ts off d).getD (off + c * stride + u) 0
      = clamp255 (comp3 (ts.getD c (0, 0, 0)) u) := by
  induction ts generalizing c off d with
  | nil => simp at hc
  | cons t ts ih =>
    cases c with
    | zero =>
      rw [pixWrites]
      have hlt : off + 0 * stride + u < off + stride := by omega
      rw [pixWrites_getD_lt _ _ _ _ _ hlt]
      have he : off + 0 * stride + u = off + u := by ring
      rw [he, set3n_getD_at _ _ _ _ _ _ hu (by omega)]
      rcases t with ⟨r, g, b⟩
      rfl
    | succ c =>
      rw [pixWrites]
      have hsm : (c + 1) * stride = c * stride + stride := Nat.succ_mul c stride
      have harith : off + (c + 1) * stride + u = (off + stride) + c * stride + u := by
        omega
      have hc2 : c < ts.length := by
        simpa using hc
      have hl2 : (off + stride) + c * stride + u
          < (set3n d off t.1 t.2.1 t.2.2).length := by
        rw [set3n_length]
        omega
      rw [harith, ih _ _ _ hc2 hl2]
      rfl

/-- `pixWrites` over an appended triple list. -/
theorem pixWrites_append (stride : ℕ) (ts us : List (ℕ × ℕ × ℕ)) (off : ℕ)
    (d : List ℕ) :
    pixWrites stride (ts ++ us) off d
      = pixWrites stride us (off + ts.length * stride) (pixWrites stride ts off d) := by
  induction ts generalizing off d with
  | nil => simp [pixWrites]
  | cons t ts ih =>
    rw [List.cons_append, pixWrites, pixWrites, ih]
    congr 1
    simp only [List.length_cons]
    ring

/-- `writeNatSeq` preserves the buffer length. -/
theorem writeNatSeq_length (vs : List ℕ) (d : List ℕ) (i : ℕ) :
    (writeNatSeq d i vs).length = d.length := by
  induction vs generalizing d i with
  | nil => rfl
  | cons v vs ih => simp [writeNatSeq, ih]

/-- `writeNatSeq` over an appended value list. -/
theorem writeNatSeq_append (vs ws : List ℕ) (d : List ℕ) (i : ℕ) :
    writeNatSeq d i (vs ++ ws) = writeNatSeq (writeNatSeq d i vs) (i + vs.length) ws := by
  induction vs generalizing d i with
  | nil => simp [writeNatSeq]
  | cons v vs ih =>
    rw [List.cons_append, writeNatSeq, writeNatSeq, ih]
    have he : (i + 1) + vs.length = i + (v :: vs).length := by
      simp only [List.length_cons]
      omega
    rw [he]

/-- A rational-value sequential store is the integer one on the converted
bytes. -/
theorem writeQSeq_eq (qs : List ℚ) (d : List ℕ) (i : ℕ) :
    writeQSeq d i qs = writeNatSeq d i (qs.map toUint8Clamp) := by
  induction qs generalizing d i with
  | nil => rfl
  | cons q qs ih =>
    rw [List.map_cons, writeQSeq, writeNatSeq, ih, clamp255_toUint8Clamp]

/-- Skipping a head element of the buffer shifts a sequential store. -/
theorem writeNatSeq_cons_succ (vs : List ℕ) (a : ℕ) (d : List ℕ) (i : ℕ) :
    writeNatSeq (a :: d) (i + 1) vs = a :: writeNatSeq d i vs := by
  induction vs generalizing d i a with
  | nil => rfl
  | cons v vs ih =>
    rw [writeNatSeq, writeNatSeq]
    have : (a :: d).set (i + 1) (clamp255 v) = a :: d.set i (clamp255 v) := rfl
    rw [this, ih]

/-- A sequential store from position zero replaces the matching prefix. -/
theorem writeNatSeq_front (vs : List ℕ) (d : List ℕ)
    (h : vs.length ≤ d.length) :
    writeNatSeq d 0 vs = vs.map clamp255 ++ d.drop vs.length := by
  induction vs generalizing d with
  | nil => simp [writeNatSeq]
  | cons v vs ih =>
    match d with
    | [] => simp at h
    | a :: d =>
      rw [writeNatSeq]
      have : (a :: d).set 0 (clamp255 v) = clamp255 v :: d := rfl
      rw [this, writeNatSeq_cons_succ, ih _ (by simpa using h)]
      simp

/-- The instance `numComps` agrees with the constructor attribute. -/
theorem sem_ncOpt (p : JsMath) (c : CS) : (CS.sem p c).ncOpt = c.ncOpt := by
  cases c <;> rfl

/-- The instance `usesZeroToOneRange` agrees with the class getter. -/
theorem sem_u01 (p : JsMath) (c : CS) : (CS.sem p c).u01 = c.u01 := by
  cases c <;> rfl

/-- The instance `name` agrees with the constructor attribute. -/
theorem sem_name (p : JsMath) (c : CS) : (CS.sem p c).name = c.csName := by
  cases c <;> rfl

/-- `isPassthrough` holds exactly for `DeviceRgbCS` at 8 bits. -/
theorem sem_pass_iff (p : JsMath) (c : CS) (bits : ℕ) :
    (CS.sem p c).passthrough bits = true ↔ c = CS.deviceRGB ∧ bits = 8 := by
  cases c <;> simp [CS.sem]

/-- The default decode map has `2n` entries. -/
theorem defaultDecodeMap_length (n : ℕ) : (defaultDecodeMap n).length = 2 * n := by
  induction n with
  | zero => rfl
  | succ n ih => simp [defaultDecodeMap, ih]; omega

/-- The pair check accepts the default decode map. -/
theorem decodePairsDefault_default (n : ℕ) :
    decodePairsDefault (defaultDecodeMap n) = true := by
  induction n with
  | zero => rfl
  | succ n ih => simpa [defaultDecodeMap, decodePairsDefault] using ih

/-- A list accepted by the pair check is the default decode map of half
its length. -/
theorem decodePairsDefault_eq :
    ∀ d : List ℚ, decodePairsDefault d = true → d = defaultDecodeMap (d.length / 2)
  | [] => by
    intro
    rfl
  | [x] => by
    intro h
    simp [decodePairsDefault] at h
  | x :: y :: rest => by
    intro h
    rw [decodePairsDefault] at h
    by_cases hxy : x ≠ 0 ∨ y ≠ 1
    · simp [hxy] at h
    · push_neg at hxy
      obtain ⟨hx, hy⟩ := hxy
      subst hx
      subst hy
      have hrest : decodePairsDefault rest = true := by
        by_cases hc : (0:ℚ) ≠ 0 ∨ (1:ℚ) ≠ 1
        · simp at hc
        · simpa [hc] using h
      have ih := decodePairsDefault_eq rest hrest
      have hlen : ((0:ℚ) :: 1 :: rest).length / 2 = rest.length / 2 + 1 := by
        simp [List.length_cons]
        omega
      rw [hlen, defaultDecodeMap]
      exact congrArg (fun l => (0:ℚ) :: 1 :: l) ih

/-- C1.  For every `n ≥ 1`, the static `ColorSpace.isDefaultDecode` returns
true on the alternating map `[0,1,…]` of length `2n` and on a null/absent
decode map; an array of length `2n` deviating from the alternating pattern
returns false; an array whose length differs from `2n` is treated as
default (returns true, after warning). -/
theorem claim1_isDefaultDecode (n : ℕ) (_hn : 1 ≤ n) :
    ColorSpace.isDefaultDecode (some (defaultDecodeMap n)) n = true ∧
    ColorSpace.isDefaultDecode none n = true ∧
    (∀ d : List ℚ, d.length = 2 * n → d ≠ defaultDecodeMap n →
      ColorSpace.isDefaultDecode (some d) n = false) ∧
    (∀ d : List ℚ, d.length ≠ 2 * n →
      ColorSpace.isDefaultDecode (some d) n = true) := by
  refine ⟨?_, rfl, ?_, ?_⟩
  · rw [ColorSpace.isDefaultDecode]
    have hl : ¬ (n * 2 ≠ (defaultDecodeMap n).length) := by
      rw [defaultDecodeMap_length]
      omega
    simp only [hl, if_false]
    exact decodePairsDefault_default n
  · intro d hlen hne
    rw [ColorSpace.isDefaultDecode]
    have hl : ¬ (n * 2 ≠ d.length) := by omega
    simp only [hl, if_false]
    cases hdp : decodePairsDefault d with
    | false => rfl
    | true =>
      exfalso
      apply hne
      have := decodePairsDefault_eq d hdp
      rw [hlen] at this
      simpa [Nat.mul_div_cancel_left n (by norm_num : 0 < 2)] using this
  · intro d hlen
    rw [ColorSpace.isDefaultDecode]
    have hl : n * 2 ≠ d.length := by omega
    simp [hl]

/-- Witness for C1 at `n = 2`. -/
theorem claim1_isDefaultDecode_witness :
    ColorSpace.isDefaultDecode (some [0, 1, 0, 1]) 2 = true ∧
    ColorSpace.isDefaultDecode none 2 = true ∧
    ColorSpace.isDefaultDecode (some [0, 1, 1, 1]) 2 = false ∧
    ColorSpace.isDefaultDecode (some [0, 1]) 2 = true := by
  have h := claim1_isDefaultDecode 2 (by norm_num)
  have hd : defaultDecodeMap 2 = [0, 1, 0, 1] := rfl
  refine ⟨?_, h.2.1, ?_, ?_⟩
  · rw [← hd]
    exact h.1
  · refine h.2.2.1 [0, 1, 1, 1] (by norm_num) ?_
    rw [hd]
    intro hc
    have : (1 : ℚ) = 0 := by
      have := congrArg (fun l => l.getD 2 (5:ℚ)) hc
      simp at this
    norm_num at this
  · exact h.2.2.2 [0, 1] (by norm_num)

/-- C4 counterexample: an `IndexedCS` is successfully constructed from an
already materialized byte buffer of length 5, which is stored as-is even
though `base.numComps * highVal = 3 * 2 = 6`; the claimed length invariant
fails for the byte-buffer ingestion form. -/
theorem claim4_counterexample :
    mkIndexed CS.deviceRGB 2 (.uint8L [1, 2, 3, 4, 5])
        = .ok (CS.indexed CS.deviceRGB 2 [1, 2, 3, 4, 5]) ∧
    ([1, 2, 3, 4, 5] : List ℕ).length ≠ CS.deviceRGB.nc * 2 := by
  refine ⟨rfl, ?_⟩
  norm_num [CS.nc, CS.ncOpt]

/-- C4 as amended: the stream and string ingestion forms produce a stored
lookup of length exactly `base.numComps * highVal`; an already
materialized byte buffer is stored as-is with no size check; any other
lookup form fails construction with a `FormatError`. -/
theorem claim4_amended (nb hi : ℕ) :
    (∀ bs : List ℕ, ∃ lk, mkLookup nb hi (.streamL bs) = .ok lk ∧
      lk.length = nb * hi) ∧
    (∀ cs : List ℕ, ∃ lk, mkLookup nb hi (.textL cs) = .ok lk ∧
      lk.length = nb * hi) ∧
    (∀ arr : List ℕ, mkLookup nb hi (.uint8L arr) = .ok arr) ∧
    mkLookup nb hi .otherL = .error () := by
  refine ⟨?_, ?_, fun arr => rfl, rfl⟩
  · intro bs
    refine ⟨_, rfl, ?_⟩
    rw [writeNatSeq_length]
    simp
  · intro cs
    refine ⟨_, rfl, ?_⟩
    simp [mkLookup]

/-- C10.  A `PatternCS` overrides neither conversion method, so both
`getRgbItem` and `getRgbBuffer` raise the inherited `unreachable` error
for every input; the conversion aborts with no byte of `dest` written
(the recovered buffer is the unchanged `dest`). -/
theorem claim10_pattern_unreachable (p : JsMath) (b : Option CS)
    (srcq : List ℚ) (so : ℕ) (src : List ℕ) (so2 count : ℕ) (d : List ℕ)
    (off bits a : ℕ) :
    (CS.sem p (.pattern b)).item srcq so d off = .error () ∧
    (CS.sem p (.pattern b)).buf src so2 count d off bits a = .error () ∧
    okD ((CS.sem p (.pattern b)).item srcq so d off) d = d ∧
    okD ((CS.sem p (.pattern b)).buf src so2 count d off bits a) d = d :=
  ⟨rfl, rfl, rfl, rfl⟩

/-- `ratIdx` is the identity on natural inputs. -/
theorem ratIdx_natCast (i : ℕ) : ratIdx ((i : ℕ) : ℚ) = i := by
  rw [ratIdx]
  have : Int.floor ((i : ℕ) : ℚ) = (i : ℤ) := Int.floor_natCast i
  rw [this]
  exact Int.toNat_natCast i

/-- C6.  For every `IndexedCS` and every palette index `i < highVal`,
`getRgbItem` on the single sample `i` forwards to
`base.getRgbBuffer(lookup, i * base.numComps, 1, dest, destOffset, 8, 0)`
and writes exactly its bytes. -/
theorem claim6_indexed_item (p : JsMath) (base : CS) (hi : ℕ) (lk : List ℕ)
    (i : ℕ) (_hij : i < hi) (d : List ℕ) (off : ℕ) :
    (CS.sem p (.indexed base hi lk)).item [(i : ℚ)] 0 d off
      = (CS.sem p base).buf lk (i * base.nc) 1 d off 8 0 := by
  show (CS.sem p base).buf lk
      (ratIdx (([(i : ℚ)] : List ℚ).getD 0 0) * (CS.sem p base).ncOpt.getD 0)
      1 d off 8 0
    = (CS.sem p base).buf lk (i * base.nc) 1 d off 8 0
  rw [sem_ncOpt]
  have hg : ([(i : ℚ)] : List ℚ).getD 0 0 = (i : ℚ) := rfl
  rw [hg, ratIdx_natCast]
  rfl

/-- Witness for C6 over a DeviceRGB base palette. -/
theorem claim6_indexed_item_witness :
    (CS.sem jsm0 (.indexed .deviceRGB 2 [255, 0, 0, 0, 255, 0])).item
        [(1 : ℚ)] 0 [0, 0, 0] 0
      = (CS.sem jsm0 .deviceRGB).buf [255, 0, 0, 0, 255, 0]
        (1 * CS.deviceRGB.nc) 1 [0, 0, 0] 0 8 0 :=
  claim6_indexed_item jsm0 .deviceRGB 2 [255, 0, 0, 0, 255, 0] 1
    (by norm_num) [0, 0, 0] 0

/-- C5.  `isPassthrough(bits)` holds exactly for DeviceRGB at `bits = 8`
(false for every other color space and every other bit depth); and the
DeviceRGB bulk conversion at 8 bits with `alpha01 = 0` on `n` pixels of
byte input is the verbatim copy of the `3n` source bytes into the start of
`dest`. -/
theorem claim5_rgb_passthrough (p : JsMath) :
    (∀ (c : CS) (bits : ℕ),
      ((CS.sem p c).passthrough bits = true ↔ c = CS.deviceRGB ∧ bits = 8)) ∧
    (∀ (src d : List ℕ) (n : ℕ),
      (∀ i, i < 3 * n → src.getD i 0 ≤ 255) → 3 * n ≤ src.length →
      3 * n ≤ d.length →
      (CS.sem p .deviceRGB).buf src 0 n d 0 8 0
        = .ok (src.take (3 * n) ++ d.drop (3 * n))) := by
  refine ⟨sem_pass_iff p, ?_⟩
  intro src d n h255 hsrc hd
  have hb : (CS.sem p .deviceRGB).buf src 0 n d 0 8 0
      = .ok (writeNatSeq d 0 ((src.drop 0).take (n * 3))) := rfl
  rw [hb, List.drop_zero]
  have h33 : n * 3 = 3 * n := by ring
  rw [h33]
  have hlen : (src.take (3 * n)).length = 3 * n := by
    rw [List.length_take]
    omega
  rw [writeNatSeq_front _ _ (by omega)]
  rw [hlen]
  have hmap : (src.take (3 * n)).map clamp255 = src.take (3 * n) := by
    have : ∀ v ∈ src.take (3 * n), clamp255 v = v := by
      intro v hv
      rw [List.mem_iff_getElem] at hv
      obtain ⟨i, hilt, hvi⟩ := hv
      have hi3 : i < 3 * n := by
        rw [hlen] at hilt
        exact hilt
      have hgd : src.getD i 0 = v := by
        have hib : i < src.length := by omega
        rw [List.getD_eq_getElem?_getD, List.getElem?_eq_getElem hib]
        have hvv : src[i] = v := by
          rw [← hvi]
          exact (List.getElem_take src).symm
        simpa using hvv
      have := h255 i hi3
      rw [hgd] at this
      simp [clamp255, Nat.min_eq_left this]
    calc (src.take (3 * n)).map clamp255 = (src.take (3 * n)).map id :=
          List.map_congr_left this
      _ = src.take (3 * n) := List.map_id _
  rw [hmap]

/-- Witness for C5 on two pixels. -/
theorem claim5_rgb_passthrough_witness :
    (CS.sem jsm0 CS.deviceRGB).passthrough 8 = true ∧
    (CS.sem jsm0 .deviceRGB).buf [10, 20, 30, 40, 50, 60] 0 2
        (List.replicate 6 9) 0 8 0
      = .ok (([10, 20, 30, 40, 50, 60] : List ℕ).take (3 * 2)
          ++ (List.replicate 6 9 : List ℕ).drop (3 * 2)) := by
  refine ⟨((claim5_rgb_passthrough jsm0).1 _ _).mpr ⟨rfl, rfl⟩, ?_⟩
  refine (claim5_rgb_passthrough jsm0).2 _ _ 2 ?_ (by norm_num) (by norm_num)
  intro i hi
  interval_cases i <;> norm_num

/-- Indexing a mapped range list. -/
theorem map_range_getD {α : Type} (f : ℕ → α) (n c : ℕ) (dflt : α)
    (hc : c < n) : (((List.range n).map f).getD c dflt) = f c := by
  rw [List.getD_eq_getElem?_getD, List.getElem?_map, List.getElem?_range hc]
  rfl

/-- The row loop of `resizeRgbImage` in `pixWrites` normal form. -/
theorem resizeRow_eq_pix (src : List ℕ) (xs : ℕ → ℕ) (py a : ℕ) :
    ∀ (r j ni : ℕ) (d : List ℕ),
      resizeRow src xs py a j r ni d
        = pixWrites (3 + a)
          ((List.range r).map (fun t =>
            (src.getD (py + xs (j + t)) 0, src.getD (py + xs (j + t) + 1) 0,
             src.getD (py + xs (j + t) + 2) 0))) ni d := by
  intro r
  induction r with
  | zero =>
    intro j ni d
    rfl
  | succ r ih =>
    intro j ni d
    rw [resizeRow, List.range_succ_eq_map, List.map_cons, pixWrites]
    rw [List.map_map]
    have hfe :
        ((fun t => (src.getD (py + xs (j + t)) 0, src.getD (py + xs (j + t) + 1) 0,
            src.getD (py + xs (j + t) + 2) 0)) ∘ Nat.succ)
          = (fun t => (src.getD (py + xs ((j + 1) + t)) 0,
              src.getD (py + xs ((j + 1) + t) + 1) 0,
              src.getD (py + xs ((j + 1) + t) + 2) 0)) := by
      funext t
      have : j + Nat.succ t = (j + 1) + t := by omega
      simp [Function.comp, this]
    rw [hfe, ih]
    have : ni + 3 + a = ni + (3 + a) := by omega
    rw [this]
    rfl

/-- `resizeRow` preserves the buffer length. -/
theorem resizeRow_length (src : List ℕ) (xs : ℕ → ℕ) (py a r j ni : ℕ)
    (d : List ℕ) : (resizeRow src xs py a j r ni d).length = d.length := by
  rw [resizeRow_eq_pix, pixWrites_length]

/-- `resizeRows` leaves positions below `ni` unchanged. -/
theorem resizeRows_getD_lt (src : List ℕ) (xs : ℕ → ℕ) (yR : ℚ)
    (w1S w2 a : ℕ) :
    ∀ (rem i ni : ℕ) (d : List ℕ) (m : ℕ), m < ni →
      (resizeRows src xs yR w1S w2 a i rem ni d).getD m 0 = d.getD m 0 := by
  intro rem
  induction rem with
  | zero =>
    intro i ni d m _
    rfl
  | succ rem ih =>
    intro i ni d m hm
    rw [resizeRows, ih _ _ _ _ (by omega), resizeRow_eq_pix,
      pixWrites_getD_lt _ _ _ _ _ hm]

/-- Positional description of `resizeRows`: output row `s`, column `c`,
component `u`. -/
theorem resizeRows_getD (src : List ℕ) (xs : ℕ → ℕ) (yR : ℚ)
    (w1S w2 a : ℕ) :
    ∀ (rem s : ℕ) (i ni : ℕ) (d : List ℕ) (c u : ℕ),
      s < rem → c < w2 → u < 3 →
      ni + s * (w2 * (3 + a)) + c * (3 + a) + u < d.length →
      (resizeRows src xs yR w1S w2 a i rem ni d).getD
          (ni + s * (w2 * (3 + a)) + c * (3 + a) + u) 0
        = clamp255 (src.getD (ratIdx (((i + s : ℕ) : ℚ) * yR) * w1S + xs c + u) 0) := by
  intro rem
  induction rem with
  | zero =>
    intro s i ni d c u hs
    omega
  | succ rem ih =>
    intro s i ni d c u hs hc hu hlen
    rw [resizeRows]
    cases s with
    | zero =>
      have hpos : ni + 0 * (w2 * (3 + a)) + c * (3 + a) + u
          = ni + c * (3 + a) + u := by ring
      rw [hpos]
      have hlt : ni + c * (3 + a) + u < ni + w2 * (3 + a) := by
        have h1 : c + 1 ≤ w2 := hc
        have h2 : (c + 1) * (3 + a) ≤ w2 * (3 + a) :=
          Nat.mul_le_mul_right _ h1
        have h3 : (c + 1) * (3 + a) = c * (3 + a) + (3 + a) := by ring
        omega
      rw [resizeRows_getD_lt _ _ _ _ _ _ _ _ _ _ _ hlt]
      rw [resizeRow_eq_pix]
      have hcl : c < ((List.range w2).map (fun t =>
          (src.getD (ratIdx ((i : ℚ) * yR) * w1S + xs (0 + t)) 0,
           src.getD (ratIdx ((i : ℚ) * yR) * w1S + xs (0 + t) + 1) 0,
           src.getD (ratIdx ((i : ℚ) * yR) * w1S + xs (0 + t) + 2) 0))).length := by
        simpa using hc
      have hp2 : ni + c * (3 + a) + u < d.length := by
        have hpos2 : ni + 0 * (w2 * (3 + a)) + c * (3 + a) + u
            = ni + c * (3 + a) + u := by ring
        omega
      rw [pixWrites_getD_at _ (by omega) _ _ _ c u (by simpa using hc) hu hp2]
      rw [map_range_getD _ _ _ _ hc]
      have hz : (0 : ℕ) + c = c := by omega
      rw [hz]
      have hi0 : i + 0 = i := by omega
      rw [hi0]
      interval_cases u <;> rfl
    | succ s =>
      have hpos : ni + (s + 1) * (w2 * (3 + a)) + c * (3 + a) + u
          = (ni + w2 * (3 + a)) + s * (w2 * (3 + a)) + c * (3 + a) + u := by
        ring
      rw [hpos]
      have hlen2 : (ni + w2 * (3 + a)) + s * (w2 * (3 + a)) + c * (3 + a) + u
          < (resizeRow src xs (ratIdx ((i : ℚ) * yR) * w1S) a 0 w2 ni d).length := by
        rw [resizeRow_length]
        omega
      rw [ih s (i + 1) _ _ c u (by omega) hc hu hlen2]
      have hii : i + 1 + s = i + (s + 1) := by omega
      rw [hii]

/-- Out-of-range reads default to 0, so a byte list reads below 256
everywhere. -/
theorem getD_le_of_forall_mem (l : List ℕ) (h : ∀ v ∈ l, v ≤ 255) (i : ℕ) :
    l.getD i 0 ≤ 255 := by
  rw [List.getD_eq_getElem?_getD]
  cases hg : l[i]? with
  | none => simp
  | some v =>
    have := h v (List.getElem?_mem hg)
    simpa using this

/-- C9 counterexample: at identity size `21847 × 1` the resize is not a
copy.  The `xScaled` table is a `Uint16Array`, so the scanline offset of
output column 21846 (`3 · 21846 = 65538`) wraps to 2: the output pixel
receives byte 0 (from source pixel 0) instead of the source pixel's own
byte 9. -/
theorem claim9_counterexample :
    (resizeRgbImage cexSrc9 cexDest9 21847 1 21847 1 0).getD 65538 0 = 0 ∧
    cexSrc9.getD 65538 0 = 9 ∧
    (resizeRgbImage cexSrc9 cexDest9 21847 1 21847 1 0).getD 65538 0
      ≠ cexSrc9.getD 65538 0 := by
  have hsrc2 : cexSrc9.getD 2 0 = 0 := by
    rw [cexSrc9, List.getD_eq_getElem?_getD, List.getElem?_append,
      List.length_replicate]
    norm_num [List.getElem?_replicate]
  have hsrcLast : cexSrc9.getD 65538 0 = 9 := by
    rw [cexSrc9, List.getD_eq_getElem?_getD, List.getElem?_append,
      List.length_replicate]
    norm_num
  have hlen9 : cexDest9.length = 65541 := by
    rw [cexDest9, List.length_replicate]
  have hmain : (resizeRgbImage cexSrc9 cexDest9 21847 1 21847 1 0).getD 65538 0 = 0 := by
    simp only [resizeRgbImage]
    have hpos : (65538 : ℕ) = 0 + 0 * (21847 * (3 + (if (0:ℕ) = 1 then 1 else 0))) +
        21846 * (3 + (if (0:ℕ) = 1 then 1 else 0)) + 0 := by
      norm_num
    rw [hpos]
    rw [resizeRows_getD _ _ _ _ _ _ 1 0 0 0 cexDest9 21846 0 (by norm_num)
      (by norm_num) (by norm_num) (by rw [hlen9]; norm_num)]
    norm_num [ratIdx, clamp255]
    have hidx : Int.toNat 21846 * 3 % 65536 = 2 := by
      decide
    rw [hidx, ← List.getD_eq_getElem?_getD]
    exact hsrc2
  exact ⟨hmain, hsrcLast, by rw [hmain, hsrcLast]; norm_num⟩

/-- C9 as amended: `alpha01` is normalized at entry (any value other than
1 behaves as 0); and at identity size the resize copies each source
pixel's three bytes to the corresponding output position (three bytes per
pixel, then `alpha01` skipped slots) provided the image is at most 21846
columns wide — for wider rows the `Uint16Array` scanline-offset table
wraps, which the counterexample exhibits. -/
theorem claim9_amended (src d : List ℕ) (w h a : ℕ)
    (ha : a ≤ 1) (hw : w ≤ 21846) (hbytes : ∀ i, src.getD i 0 ≤ 255) :
    (∀ (a0 : ℕ) (src0 d0 : List ℕ) (w1 h1 w2 h2 : ℕ), a0 ≠ 1 →
      resizeRgbImage src0 d0 w1 h1 w2 h2 a0
        = resizeRgbImage src0 d0 w1 h1 w2 h2 0) ∧
    (∀ r c u, r < h → c < w → u < 3 →
      (r * w + c) * (3 + a) + u < d.length →
      (resizeRgbImage src d w h w h a).getD ((r * w + c) * (3 + a) + u) 0
        = src.getD ((r * w + c) * 3 + u) 0) := by
  constructor
  · intro a0 src0 d0 w1 h1 w2 h2 ha0
    simp only [resizeRgbImage]
    rw [if_neg ha0]
    norm_num
  · intro r c u hr hc hu hlen
    have hh0 : 0 < h := by omega
    have hw0 : 0 < w := by omega
    simp only [resizeRgbImage]
    have haN : (if a = 1 then 1 else 0 : ℕ) = a := by
      interval_cases a <;> simp
    rw [haN]
    have hpos : (r * w + c) * (3 + a) + u
        = 0 + r * (w * (3 + a)) + c * (3 + a) + u := by ring
    rw [hpos]
    rw [resizeRows_getD _ _ _ _ _ _ h r 0 0 d c u hr hc hu (by omega)]
    have hhq : ((h : ℕ) : ℚ) / ((h : ℕ) : ℚ) = 1 :=
      div_self (Nat.cast_ne_zero.mpr (by omega))
    have hwq : ((w : ℕ) : ℚ) / ((w : ℕ) : ℚ) = 1 :=
      div_self (Nat.cast_ne_zero.mpr (by omega))
    rw [hhq, hwq, mul_one, mul_one]
    have h0r : 0 + r = r := by omega
    rw [h0r, ratIdx_natCast, ratIdx_natCast]
    have hmod : c * 3 % 65536 = c * 3 := Nat.mod_eq_of_lt (by omega)
    rw [hmod]
    have hidx : r * (w * 3) + c * 3 + u = (r * w + c) * 3 + u := by ring
    rw [hidx]
    have hb := hbytes ((r * w + c) * 3 + u)
    simp only [clamp255]
    omega

/-- Witness for C9: the normalization on `alpha01 = 7` and the identity
copy of the second pixel at `alpha01 = 1`. -/
theorem claim9_amended_witness :
    resizeRgbImage [1, 2, 3] (List.replicate 3 0) 1 1 1 1 7
      = resizeRgbImage [1, 2, 3] (List.replicate 3 0) 1 1 1 1 0 ∧
    (resizeRgbImage [1, 2, 3, 4, 5, 6] (List.replicate 8 9) 2 1 2 1 1).getD
        ((0 * 2 + 1) * (3 + 1) + 0) 0
      = ([1, 2, 3, 4, 5, 6] : List ℕ).getD ((0 * 2 + 1) * 3 + 0) 0 := by
  have hb : ∀ i, ([1, 2, 3, 4, 5, 6] : List ℕ).getD i 0 ≤ 255 := by
    apply getD_le_of_forall_mem
    intro v hv
    simp at hv
    rcases hv with h | h | h | h | h | h <;> omega
  have h := claim9_amended [1, 2, 3, 4, 5, 6] (List.replicate 8 9) 2 1 1
    (by norm_num) (by norm_num) hb
  exact ⟨h.1 7 [1, 2, 3] (List.replicate 3 0) 1 1 1 1 (by norm_num),
    h.2 0 1 0 (by norm_num) (by norm_num) (by norm_num) (by simp)⟩

/-- A byte list whose members are at most 255 is fixed by clamping. -/
theorem map_clamp255_of_le (l : List ℕ) (h : ∀ v ∈ l, v ≤ 255) :
    l.map clamp255 = l := by
  calc l.map clamp255 = l.map id := by
        apply List.map_congr_left
        intro v hv
        simp [clamp255, Nat.min_eq_left (h v hv)]
    _ = l := List.map_id l

/-- A clamped rational store equals the integer triple store of the
converted components. -/
theorem set3q_eq (d : List ℕ) (i : ℕ) (r g b : ℚ) :
    set3q d i r g b = set3n d i (toUint8Clamp r) (toUint8Clamp g) (toUint8Clamp b) := by
  simp [set3q, set3n, clamp255_toUint8Clamp]

/-- Length of the staged byte buffer. -/
theorem stagedPix_length (tint : List ℚ → List ℚ) (n nb : ℕ) (scale : ℚ)
    (src : List ℕ) : ∀ (count so : ℕ),
    (stagedPix tint n nb scale src so count).length = count * nb := by
  intro count
  induction count with
  | zero =>
    intro so
    simp [stagedPix]
  | succ c ih =>
    intro so
    rw [stagedPix]
    simp only [List.length_append, List.length_map, List.length_range, ih]
    ring

/-- Every staged byte is at most 255. -/
theorem stagedPix_le (tint : List ℚ → List ℚ) (n nb : ℕ) (scale : ℚ)
    (src : List ℕ) : ∀ (count so : ℕ),
    ∀ v ∈ stagedPix tint n nb scale src so count, v ≤ 255 := by
  intro count
  induction count with
  | zero =>
    intro so v hv
    simp [stagedPix] at hv
  | succ c ih =>
    intro so v hv
    rw [stagedPix] at hv
    rcases List.mem_append.mp hv with h | h
    · rw [List.mem_map] at h
      obtain ⟨j, _, hj⟩ := h
      rw [← hj]
      exact toUint8Clamp_le _
    · exact ih (so + n) v h

/-- The `usesZeroToOneRange` staging loop in normal form: a sequential
clamped store of the staged bytes. -/
theorem altLoopS_u01 (bitem : List ℚ → ℕ → List ℕ → ℕ → Except Unit (List ℕ))
    (tint : List ℚ → List ℚ) (n nb : ℕ) (scale : ℚ) (src : List ℕ) :
    ∀ (count so pos : ℕ) (buf : List ℕ),
    altLoopS bitem tint n nb scale true src so pos count buf
      = .ok (writeNatSeq buf pos (stagedPix tint n nb scale src so count)) := by
  intro count
  induction count with
  | zero =>
    intro so pos buf
    rfl
  | succ c ih =>
    intro so pos buf
    rw [stagedPix, writeNatSeq_append]
    have hlen : ((List.range nb).map (fun j =>
        toUint8Clamp ((tint (scaledVec n scale src so)).getD j 0 * 255))).length = nb := by
      simp
    rw [hlen]
    simp only [altLoopS, if_true]
    rw [writeQSeq_eq, List.map_map]
    exact ih (so + n) (pos + nb) _

/-- Evaluation rule for the clamped store when the value rounds down. -/
theorem toUint8Clamp_eval_down (x : ℚ) (k : ℕ) (h0 : ¬ x ≤ 0) (h255 : ¬ 255 ≤ x)
    (hfl : Int.floor x = (k : ℤ)) (hlt : x - (k : ℚ) < 1/2) : toUint8Clamp x = k := by
  rw [toUint8Clamp, if_neg h0, if_neg h255, if_pos]
  · rw [hfl]
    exact Int.toNat_natCast k
  · rw [hfl]
    push_cast
    exact hlt

/-- Evaluation rule for the clamped store when the value rounds up. -/
theorem toUint8Clamp_eval_up (x : ℚ) (k : ℕ) (h0 : ¬ x ≤ 0) (h255 : ¬ 255 ≤ x)
    (hfl : Int.floor x = (k : ℤ)) (hgt : 1/2 < x - (k : ℚ)) : toUint8Clamp x = k + 1 := by
  rw [toUint8Clamp, if_neg h0, if_neg h255, if_neg, if_pos]
  · rw [hfl]
    exact congrArg (fun z => z + 1) (Int.toNat_natCast k)
  · rw [hfl]
    push_cast
    exact hgt
  · rw [hfl]
    push_cast
    linarith

/-- C2 counterexample: an `AlternateCS` over DeviceCMYK at one bit per
component.  The staged path quantizes the tinted component `1/510` to the
byte 0 (`255/510 = 0.5` rounds to even), so the bulk conversion outputs
`255, 255, 255`; the exact pixel-by-pixel composition through the base's
`getRgbItem` outputs `254, 255, 255`.  The bulk output therefore differs
from the claimed composition `base(tint(src / (2^bits - 1)))`. -/
theorem claim2_counterexample :
    (CS.sem jsm0 (.alternate 1 .deviceCmyk cexTint)).buf [1] 0 1 [0, 0, 0] 0 1 0
      = .ok [255, 255, 255] ∧
    (CS.sem jsm0 .deviceCmyk).item (cexTint [1]) 0 [0, 0, 0] 0
      = .ok [254, 255, 255] ∧
    ¬ ((CS.sem jsm0 (.alternate 1 .deviceCmyk cexTint)).buf [1] 0 1 [0, 0, 0] 0 1 0
        = (CS.sem jsm0 .deviceCmyk).item (cexTint [1]) 0 [0, 0, 0] 0) := by
  have hbulk : (CS.sem jsm0 (.alternate 1 .deviceCmyk cexTint)).buf [1] 0 1 [0, 0, 0] 0 1 0
      = .ok [255, 255, 255] := by
    norm_num [CS.sem, altLoopS, writeQSeq, writeNatSeq, cexTint, scaledVec,
      toUint8Clamp, set3q, set3n, clamp255, cmykConvert, convLoop, vecAt,
      Except.bind, List.replicate, Int.toNat, tcT, List.range_succ]
  have hitem : (CS.sem jsm0 .deviceCmyk).item (cexTint [1]) 0 [0, 0, 0] 0
      = .ok [254, 255, 255] := by
    have hstep : (CS.sem jsm0 .deviceCmyk).item (cexTint [1]) 0 [0, 0, 0] 0
        = .ok (set3q [0, 0, 0] 0 (cmykConvert (1/510) 0 0 0).1
            (cmykConvert (1/510) 0 0 0).2.1 (cmykConvert (1/510) 0 0 0).2.2) := rfl
    rw [hstep]
    have hr : (cmykConvert (1/510) 0 0 0).1
        = 16545006682583657046503/65025000000000000000 := by
      rw [cmykConvert]
      norm_num
    have hg : (cmykConvert (1/510) 0 0 0).2.1
        = 22095022442651926029383/86700000000000000000 := by
      rw [cmykConvert]
      norm_num
    have hb : (cmykConvert (1/510) 0 0 0).2.2
        = 4876343180888559531211/19125000000000000000 := by
      rw [cmykConvert]
      norm_num
    rw [hr, hg, hb]
    have h1 : toUint8Clamp (16545006682583657046503/65025000000000000000) = 254 := by
      apply toUint8Clamp_eval_down _ 254 (by norm_num) (by norm_num)
      · rw [Int.floor_eq_iff]
        constructor <;> norm_num
      · norm_num
    have h2 : toUint8Clamp (22095022442651926029383/86700000000000000000) = 255 := by
      have := toUint8Clamp_eval_up (22095022442651926029383/86700000000000000000) 254
        (by norm_num) (by norm_num)
        (by rw [Int.floor_eq_iff]; constructor <;> norm_num)
        (by norm_num)
      simpa using this
    have h3 : toUint8Clamp (4876343180888559531211/19125000000000000000) = 255 := by
      have := toUint8Clamp_eval_up (4876343180888559531211/19125000000000000000) 254
        (by norm_num) (by norm_num)
        (by rw [Int.floor_eq_iff]; constructor <;> norm_num)
        (by norm_num)
      simpa using this
    rw [set3q, h1, h2, h3]
    rfl
  refine ⟨hbulk, hitem, ?_⟩
  rw [hbulk, hitem]
  intro hc
  have := congrArg (fun r => (okD r []).getD 0 0) hc
  simp [okD] at this

/-- The staging loop over a `LabCS` base (the `usesZeroToOneRange = false`
path): each pixel is converted independently through the base
`getRgbItem`, three bytes per pixel. -/
theorem altLoopS_lab (p : JsMath) (dat : LabData) (tint : List ℚ → List ℚ)
    (n : ℕ) (scale : ℚ) (src : List ℕ) :
    ∀ (count so pos : ℕ) (d : List ℕ),
    altLoopS (CS.sem p (.lab dat)).item tint n 3 scale false src so pos count d
      = .ok (pixWrites 3 ((List.range count).map (fun i =>
          labPix p dat (tint (scaledVec n scale src (so + i * n))))) pos d) := by
  intro count
  induction count with
  | zero =>
    intro so pos d
    simp [altLoopS, pixWrites]
  | succ c ih =>
    intro so pos d
    rw [altLoopS]
    simp only [Bool.false_eq_true, if_false]
    have hitem : (CS.sem p (.lab dat)).item
        (tint ((List.range n).map (fun j => (src.getD (so + j) 0 : ℚ) * scale))) 0 d pos
        = .ok (set3n d pos
            (labPix p dat (tint (scaledVec n scale src so))).1
            (labPix p dat (tint (scaledVec n scale src so))).2.1
            (labPix p dat (tint (scaledVec n scale src so))).2.2) := by
      rw [show (CS.sem p (.lab dat)).item
          (tint ((List.range n).map (fun j => (src.getD (so + j) 0 : ℚ) * scale))) 0 d pos
          = .ok (set3q d pos
              (labConvert p dat none ((tint (scaledVec n scale src so)).getD 0 0)
                ((tint (scaledVec n scale src so)).getD 1 0)
                ((tint (scaledVec n scale src so)).getD 2 0)).1
              (labConvert p dat none ((tint (scaledVec n scale src so)).getD 0 0)
                ((tint (scaledVec n scale src so)).getD 1 0)
                ((tint (scaledVec n scale src so)).getD 2 0)).2.1
              (labConvert p dat none ((tint (scaledVec n scale src so)).getD 0 0)
                ((tint (scaledVec n scale src so)).getD 1 0)
                ((tint (scaledVec n scale src so)).getD 2 0)).2.2) from rfl]
      rw [set3q_eq]
      rfl
    rw [hitem]
    show altLoopS (CS.sem p (.lab dat)).item tint n 3 scale false src (so + n) (pos + 3) c _
      = _
    rw [ih]
    congr 1
    rw [List.range_succ_eq_map, List.map_cons, pixWrites, List.map_map]
    have hz : so + 0 * n = so := by omega
    have hfe : ((fun i => labPix p dat (tint (scaledVec n scale src (so + i * n)))) ∘ Nat.succ)
        = fun i => labPix p dat (tint (scaledVec n scale src ((so + n) + i * n))) := by
      funext i
      have : so + Nat.succ i * n = (so + n) + i * n := by
        rw [Nat.succ_mul]
        omega
      simp [Function.comp, this]
    rw [hfe, hz]

/-- Unfolding of the `AlternateCS.getRgbBuffer` dispatch. -/
theorem sem_alternate_buf (p : JsMath) (n : ℕ) (base : CS)
    (tint : List ℚ → List ℚ) (src : List ℕ) (so count : ℕ) (d : List ℕ)
    (off bits a : ℕ) :
    (CS.sem p (.alternate n base tint)).buf src so count d off bits a
      = (if ((CS.sem p base).passthrough 8 || !(CS.sem p base).u01) && a == 0 then
          altLoopS (CS.sem p base).item tint n ((CS.sem p base).ncOpt.getD 0)
            (1 / ((2:ℚ)^bits - 1)) (CS.sem p base).u01 src so off count d
        else
          (altLoopS (CS.sem p base).item tint n ((CS.sem p base).ncOpt.getD 0)
              (1 / ((2:ℚ)^bits - 1)) (CS.sem p base).u01 src so 0 count
              (List.replicate ((CS.sem p base).ncOpt.getD 0 * count) 0)).bind
            (fun bbuf => (CS.sem p base).buf bbuf 0 count d off 8 a)) := rfl

/-- C2 as amended: for every `AlternateCS` whose base uses the zero-to-one
range, the bulk conversion equals the staged composition — the tinted
components are multiplied by 255, clamp-rounded to bytes (one byte
quantization per component, which can change the output, as the
counterexample shows), and finalized through `base.getRgbBuffer` at
`bits = 8`; for a Lab base (the only base not using the zero-to-one
range) with `alpha01 = 0`, the output is exactly the per-pixel composition
`base.getRgbItem(tint(src * 1/(2^bits - 1)))`. -/
theorem claim2_amended (p : JsMath) (n : ℕ) (base : CS) (tint : List ℚ → List ℚ)
    (src : List ℕ) (so count : ℕ) (d : List ℕ) (off bits a : ℕ) :
    (base.u01 = true →
      (CS.sem p (.alternate n base tint)).buf src so count d off bits a
        = (CS.sem p base).buf
            (stagedPix tint n base.nc (1 / ((2:ℚ)^bits - 1)) src so count)
            0 count d off 8 a) ∧
    (∀ dat, base = .lab dat → a = 0 →
      (CS.sem p (.alternate n base tint)).buf src so count d off bits a
        = .ok (pixWrites 3 ((List.range count).map (fun i =>
            labPix p dat (tint (scaledVec n (1 / ((2:ℚ)^bits - 1)) src (so + i * n)))))
            off d)) := by
  constructor
  · intro hu
    rw [sem_alternate_buf]
    have hnb : (CS.sem p base).ncOpt.getD 0 = base.nc := by
      rw [sem_ncOpt]
      rfl
    have hu2 : (CS.sem p base).u01 = true := by
      rw [sem_u01, hu]
    rw [hnb, hu2]
    by_cases hpa : ((CS.sem p base).passthrough 8 = true) ∧ a = 0
    · obtain ⟨hp, ha0⟩ := hpa
      have hbase : base = CS.deviceRGB := ((sem_pass_iff p base 8).mp hp).1
      subst hbase
      subst ha0
      have hcond : (((CS.sem p CS.deviceRGB).passthrough 8 || !true) && ((0:ℕ) == 0)) = true := by
        rw [hp]
        rfl
      rw [hcond, if_pos rfl, altLoopS_u01]
      have hnc3 : CS.deviceRGB.nc = 3 := rfl
      rw [hnc3]
      have hrgb : (CS.sem p .deviceRGB).buf
          (stagedPix tint n 3 (1 / ((2:ℚ)^bits - 1)) src so count) 0 count d off 8 0
          = .ok (writeNatSeq d off
              (((stagedPix tint n 3 (1 / ((2:ℚ)^bits - 1)) src so count).drop 0).take
                (count * 3))) := rfl
      rw [hrgb, List.drop_zero]
      have htake : (stagedPix tint n 3 (1 / ((2:ℚ)^bits - 1)) src so count).take (count * 3)
          = stagedPix tint n 3 (1 / ((2:ℚ)^bits - 1)) src so count := by
        apply List.take_of_length_le
        rw [stagedPix_length]
      rw [htake]
    · have hcond : (((CS.sem p base).passthrough 8 || !true) && (a == 0)) = false := by
        by_cases ha0 : a = 0
        · have hpf : (CS.sem p base).passthrough 8 = false := by
            cases hpp : (CS.sem p base).passthrough 8
            · rfl
            · exact absurd ⟨hpp, ha0⟩ hpa
          simp [hpf]
        · simp [beq_iff_eq, ha0]
      rw [hcond]
      simp only [Bool.false_eq_true, if_false]
      rw [altLoopS_u01]
      have hwn : writeNatSeq (List.replicate (base.nc * count) 0) 0
          (stagedPix tint n base.nc (1 / ((2:ℚ)^bits - 1)) src so count)
          = stagedPix tint n base.nc (1 / ((2:ℚ)^bits - 1)) src so count := by
        have hsl : (stagedPix tint n base.nc (1 / ((2:ℚ)^bits - 1)) src so count).length
            = count * base.nc := stagedPix_length _ _ _ _ _ _ _
        rw [writeNatSeq_front _ _ (by
          rw [hsl, List.length_replicate]
          exact le_of_eq (Nat.mul_comm count base.nc))]
        rw [map_clamp255_of_le _ (stagedPix_le tint n base.nc _ src count so), hsl]
        rw [List.drop_eq_nil_of_le (by
          rw [List.length_replicate]
          exact le_of_eq (Nat.mul_comm base.nc count))]
        simp
      rw [hwn]
      rfl
  · intro dat hbase ha0
    subst hbase
    subst ha0
    rw [sem_alternate_buf]
    have hcond : (((CS.sem p (.lab dat)).passthrough 8 || !(CS.sem p (.lab dat)).u01)
        && ((0:ℕ) == 0)) = true := rfl
    rw [hcond, if_pos rfl]
    have hnb : ((CS.sem p (.lab dat)).ncOpt.getD 0) = 3 := rfl
    have hu : (CS.sem p (.lab dat)).u01 = false := rfl
    rw [hnb, hu, altLoopS_lab]

/-- Witness for C2 as amended, on the counterexample's Separation space. -/
theorem claim2_amended_witness :
    (CS.sem jsm0 (.alternate 1 .deviceCmyk cexTint)).buf [1] 0 1 [0, 0, 0] 0 1 0
      = (CS.sem jsm0 .deviceCmyk).buf
          (stagedPix cexTint 1 CS.deviceCmyk.nc (1 / ((2:ℚ)^1 - 1)) [1] 0 1)
          0 1 [0, 0, 0] 0 8 0 :=
  (claim2_amended jsm0 1 .deviceCmyk cexTint [1] 0 1 [0, 0, 0] 0 1 0).1 rfl

/-- C7.  For an ICCBased descriptor: when a truthy `Alternate` entry is
present, parses to an IR whose constructed instance has a component count
matching the raw `N` entry, `parseToIR` returns that alternate IR exactly;
when the component count does not match, it warns and falls through to
the `N`-keyed device mapping; when no (truthy) alternate is present it
also falls through; and the fallback maps `N = 1` to DeviceGray, `N = 3`
to DeviceRGB, `N = 4` to DeviceCMYK, and fails with a `FormatError` for
any other `N`. -/
theorem claim7_iccbased (xref : ℕ → PdfObj) (res : PdfObj)
    (factory : PdfObj → List ℚ → List ℚ) (fuel : ℕ)
    (sd : List (String × PdfObj)) (bytes : List ℕ) :
    (∀ altO altIR altCS, dictGet sd kAlternate = some altO → truthy altO = true →
      parseToIR xref res factory fuel altO = .ok altIR →
      fromIR altIR = .ok altCS →
      ncEqNum altCS.ncOpt (dictGet sd kN) = true →
      parseToIR xref res factory (fuel + 2)
          (.arrO [.nameO kICCBased, .streamO sd bytes]) = .ok altIR) ∧
    (∀ altO altIR altCS, dictGet sd kAlternate = some altO → truthy altO = true →
      parseToIR xref res factory fuel altO = .ok altIR →
      fromIR altIR = .ok altCS →
      ncEqNum altCS.ncOpt (dictGet sd kN) = false →
      parseToIR xref res factory (fuel + 2)
          (.arrO [.nameO kICCBased, .streamO sd bytes])
        = iccFallback (dictGet sd kN)) ∧
    ((∀ altO, dictGet sd kAlternate = some altO → truthy altO = false) →
      parseToIR xref res factory (fuel + 2)
          (.arrO [.nameO kICCBased, .streamO sd bytes])
        = iccFallback (dictGet sd kN)) ∧
    (iccFallback (dictGet sd kN)
      = (if nObjIs (dictGet sd kN) 1 then .ok .dGray
         else if nObjIs (dictGet sd kN) 3 then .ok .dRgb
         else if nObjIs (dictGet sd kN) 4 then .ok .dCmyk
         else .error ())) := by
  have hstep : parseToIR xref res factory (fuel + 2)
      (.arrO [.nameO kICCBased, .streamO sd bytes])
      = (match dictGet sd kAlternate with
         | some altO =>
           if truthy altO then
             (parseToIR xref res factory fuel altO).bind (fun altIR =>
               (fromIR altIR).bind (fun altCS =>
                 if ncEqNum altCS.ncOpt (dictGet sd kN) then .ok altIR
                 else iccFallback (dictGet sd kN)))
           else iccFallback (dictGet sd kN)
         | none => iccFallback (dictGet sd kN)) := rfl
  refine ⟨?_, ?_, ?_, rfl⟩
  · intro altO altIR altCS hget htr hparse hfrom hnc
    rw [hstep, hget]
    simp only [htr, if_true, hparse, Except.bind, hfrom, hnc]
  · intro altO altIR altCS hget htr hparse hfrom hnc
    rw [hstep, hget]
    simp only [htr, if_true, hparse, Except.bind, hfrom, hnc]
    simp
  · intro hfalsy
    rw [hstep]
    cases hget : dictGet sd kAlternate with
    | none => rfl
    | some altO =>
      have := hfalsy altO hget
      simp only [this]
      simp

/-- Witness for C7: an ICCBased stream with `N = 3` and a DeviceRGB
alternate parses to the alternate's IR. -/
theorem claim7_iccbased_witness :
    parseToIR xrefNull .nullO factoryId (1 + 2)
        (.arrO [.nameO kICCBased,
          .streamO [(kN, .numO 3), (kAlternate, .nameO nmDeviceRGB)] []])
      = .ok .dRgb := by
  apply (claim7_iccbased xrefNull .nullO factoryId 1
      [(kN, .numO 3), (kAlternate, .nameO nmDeviceRGB)] []).1
    (.nameO nmDeviceRGB) .dRgb .deviceRGB rfl rfl rfl rfl
  norm_num [ncEqNum, CS.ncOpt, dictGet, kN, kAlternate, List.find?]

/-- Reflexivity of the write invariant. -/
theorem mono_refl (d : List ℕ) : Mono d d := fun _ => Or.inl rfl

/-- Transitivity of the write invariant. -/
theorem mono_trans {d d2 d3 : List ℕ} (h1 : Mono d d2) (h2 : Mono d2 d3) :
    Mono d d3 := by
  intro i
  rcases h2 i with h | h
  · rw [h]
    exact h1 i
  · exact Or.inr h

/-- A single clamped store preserves the invariant. -/
theorem mono_set (d : List ℕ) (i v : ℕ) (hv : v ≤ 255) : Mono d (d.set i v) := by
  intro j
  rw [getD_set_split]
  split
  · exact Or.inr hv
  · exact Or.inl rfl

/-- A triple store preserves the invariant. -/
theorem mono_set3n (d : List ℕ) (i r g b : ℕ) : Mono d (set3n d i r g b) := by
  rw [set3n]
  refine mono_trans (mono_trans (mono_set d i _ ?_) (mono_set _ (i+1) _ ?_))
    (mono_set _ (i+2) _ ?_) <;> simp [clamp255]

/-- A clamped rational triple store preserves the invariant. -/
theorem mono_set3q (d : List ℕ) (i : ℕ) (r g b : ℚ) : Mono d (set3q d i r g b) := by
  rw [set3q_eq]
  exact mono_set3n d i _ _ _

/-- A sequential integer store preserves the invariant. -/
theorem mono_writeNatSeq (vs : List ℕ) : ∀ (d : List ℕ) (i : ℕ),
    Mono d (writeNatSeq d i vs) := by
  induction vs with
  | nil =>
    intro d i
    exact mono_refl d
  | cons v vs ih =>
    intro d i
    rw [writeNatSeq]
    exact mono_trans (mono_set d i _ (by simp [clamp255])) (ih _ _)

/-- A sequential rational store preserves the invariant. -/
theorem mono_writeQSeq (qs : List ℚ) (d : List ℕ) (i : ℕ) :
    Mono d (writeQSeq d i qs) := by
  rw [writeQSeq_eq]
  exact mono_writeNatSeq _ d i

/-- Every leaf conversion loop preserves the invariant. -/
theorem mono_convLoop (ncIn : ℕ) (conv : List ℚ → ℚ × ℚ × ℚ) (src : List ℕ) :
    ∀ (count so q a : ℕ) (d : List ℕ), Mono d (convLoop ncIn conv src so q a count d) := by
  intro count
  induction count with
  | zero =>
    intro so q a d
    exact mono_refl d
  | succ c ih =>
    intro so q a d
    rw [convLoop]
    exact mono_trans (mono_set3q _ _ _ _ _) (ih _ _ _ _)

/-- The Indexed bulk loop preserves the invariant if every base call
does. -/
theorem mono_indexedLoop
    (bb : List ℕ → ℕ → ℕ → List ℕ → ℕ → ℕ → ℕ → Except Unit (List ℕ))
    (nb delta a : ℕ) (lookup src : List ℕ)
    (hbb : ∀ lk2 pos cnt d doff bits a2 d2,
      bb lk2 pos cnt d doff bits a2 = .ok d2 → Mono d d2) :
    ∀ (count so doff : ℕ) (d d2 : List ℕ),
      indexedLoopS bb nb delta a lookup src so doff count d = .ok d2 → Mono d d2 := by
  intro count
  induction count with
  | zero =>
    intro so doff d d2 h
    cases h
    exact mono_refl d
  | succ c ih =>
    intro so doff d d2 h
    rw [indexedLoopS] at h
    cases hbbv : bb lookup (src.getD so 0 * nb) 1 d doff 8 a with
    | error e =>
      rw [hbbv] at h
      cases h
    | ok dmid =>
      rw [hbbv] at h
      exact mono_trans (hbb _ _ _ _ _ _ _ _ hbbv) (ih _ _ _ _ h)

/-- The Alternate staging loop preserves the invariant if every base item
call does. -/
theorem mono_altLoop (bitem : List ℚ → ℕ → List ℕ → ℕ → Except Unit (List ℕ))
    (tint : List ℚ → List ℚ) (n nb : ℕ) (scale : ℚ) (u01 : Bool)
    (src : List ℕ)
    (hbi : ∀ ts so d off d2, bitem ts so d off = .ok d2 → Mono d d2) :
    ∀ (count so pos : ℕ) (buf d2 : List ℕ),
      altLoopS bitem tint n nb scale u01 src so pos count buf = .ok d2 →
      Mono buf d2 := by
  cases u01 with
  | true =>
    intro count
    induction count with
    | zero =>
      intro so pos buf d2 h
      cases h
      exact mono_refl buf
    | succ c ih =>
      intro so pos buf d2 h
      rw [altLoopS] at h
      simp only [if_true] at h
      exact mono_trans (mono_writeQSeq _ _ _) (ih _ _ _ _ h)
  | false =>
    intro count
    induction count with
    | zero =>
      intro so pos buf d2 h
      cases h
      exact mono_refl buf
    | succ c ih =>
      intro so pos buf d2 h
      rw [altLoopS] at h
      simp only [Bool.false_eq_true, if_false] at h
      cases hbv : bitem (tint ((List.range n).map
          (fun j => (src.getD (so + j) 0 : ℚ) * scale))) 0 buf pos with
      | error e =>
        rw [hbv] at h
        cases h
      | ok bmid =>
        rw [hbv] at h
        simp only [Except.bind] at h
        exact mono_trans (hbi _ _ _ _ _ hbv) (ih _ _ _ _ h)

/-- Unfolding of the DeviceGray bulk conversion. -/
theorem sem_gray_buf (p : JsMath) (src : List ℕ) (so count : ℕ) (d : List ℕ)
    (off bits a : ℕ) :
    (CS.sem p .deviceGray).buf src so count d off bits a
      = .ok (convLoop 1
          (fun xs => (255 / ((2:ℚ)^bits - 1) * xs.getD 0 0,
                      255 / ((2:ℚ)^bits - 1) * xs.getD 0 0,
                      255 / ((2:ℚ)^bits - 1) * xs.getD 0 0))
          src so off a count d) := rfl

/-- Unfolding of the DeviceRGB bulk conversion. -/
theorem sem_rgb_buf (p : JsMath) (src : List ℕ) (so count : ℕ) (d : List ℕ)
    (off bits a : ℕ) :
    (CS.sem p .deviceRGB).buf src so count d off bits a
      = (if bits = 8 ∧ a = 0 then
          .ok (writeNatSeq d off ((src.drop so).take (count * 3)))
        else
          .ok (convLoop 3
            (fun xs => (255 / ((2:ℚ)^bits - 1) * xs.getD 0 0,
                        255 / ((2:ℚ)^bits - 1) * xs.getD 1 0,
                        255 / ((2:ℚ)^bits - 1) * xs.getD 2 0))
            src so off a count d)) := rfl

/-- Unfolding of the DeviceCMYK bulk conversion. -/
theorem sem_cmyk_buf (p : JsMath) (src : List ℕ) (so count : ℕ) (d : List ℕ)
    (off bits a : ℕ) :
    (CS.sem p .deviceCmyk).buf src so count d off bits a
      = .ok (convLoop 4
          (fun xs => cmykConvert (xs.getD 0 0 / ((2:ℚ)^bits - 1))
            (xs.getD 1 0 / ((2:ℚ)^bits - 1))
            (xs.getD 2 0 / ((2:ℚ)^bits - 1))
            (xs.getD 3 0 / ((2:ℚ)^bits - 1)))
          src so off a count d) := rfl

/-- Unfolding of the CalGray bulk conversion. -/
theorem sem_calGray_buf (p : JsMath) (XW YW ZW G : ℚ) (src : List ℕ)
    (so count : ℕ) (d : List ℕ) (off bits a : ℕ) :
    (CS.sem p (.calGray XW YW ZW G)).buf src so count d off bits a
      = .ok (convLoop 1
          (fun xs =>
            let v := calGrayConvert p YW G (xs.getD 0 0 / ((2:ℚ)^bits - 1))
            (v, v, v))
          src so off a count d) := rfl

/-- Unfolding of the CalRGB bulk conversion. -/
theorem sem_calRGB_buf (p : JsMath) (dat : CalRGBData) (src : List ℕ)
    (so count : ℕ) (d : List ℕ) (off bits a : ℕ) :
    (CS.sem p (.calRGB dat)).buf src so count d off bits a
      = .ok (convLoop 3
          (fun xs => calRGBConvert p dat (xs.getD 0 0 / ((2:ℚ)^bits - 1))
            (xs.getD 1 0 / ((2:ℚ)^bits - 1)) (xs.getD 2 0 / ((2:ℚ)^bits - 1)))
          src so off a count d) := rfl

/-- Unfolding of the Lab bulk conversion. -/
theorem sem_lab_buf (p : JsMath) (dat : LabData) (src : List ℕ)
    (so count : ℕ) (d : List ℕ) (off bits a : ℕ) :
    (CS.sem p (.lab dat)).buf src so count d off bits a
      = .ok (convLoop 3
          (fun xs => labConvert p dat (some (2^bits - 1)) (xs.getD 0 0)
            (xs.getD 1 0) (xs.getD 2 0))
          src so off a count d) := rfl

/-- Unfolding of the Indexed bulk conversion. -/
theorem sem_indexed_buf (p : JsMath) (base : CS) (hi : ℕ) (lk : List ℕ)
    (src : List ℕ) (so count : ℕ) (d : List ℕ) (off bits a : ℕ) :
    (CS.sem p (.indexed base hi lk)).buf src so count d off bits a
      = ((CS.sem p base).outLen ((CS.sem p base).ncOpt.getD 0) a).bind
          (fun delta =>
            indexedLoopS (CS.sem p base).buf ((CS.sem p base).ncOpt.getD 0)
              delta a lk src so off count d) := rfl

/-- Unfolding of the Indexed per-item conversion. -/
theorem sem_indexed_item (p : JsMath) (base : CS) (hi : ℕ) (lk : List ℕ)
    (srcq : List ℚ) (so : ℕ) (d : List ℕ) (off : ℕ) :
    (CS.sem p (.indexed base hi lk)).item srcq so d off
      = (CS.sem p base).buf lk
          (ratIdx (srcq.getD so 0) * (CS.sem p base).ncOpt.getD 0) 1 d off 8 0 := rfl

/-- Unfolding of the Alternate per-item conversion. -/
theorem sem_alternate_item (p : JsMath) (n : ℕ) (base : CS)
    (tint : List ℚ → List ℚ) (srcq : List ℚ) (so : ℕ) (d : List ℕ) (off : ℕ) :
    (CS.sem p (.alternate n base tint)).item srcq so d off
      = (CS.sem p base).item (tint (srcq.drop so)) 0 d off := rfl

/-- Both conversion methods of every instance only write byte values:
whatever they return, each buffer position is unchanged or at most 255. -/
theorem mono_sem (p : JsMath) : ∀ (cs : CS),
    (∀ (srcq : List ℚ) (so : ℕ) (d : List ℕ) (off : ℕ) (d2 : List ℕ),
      (CS.sem p cs).item srcq so d off = .ok d2 → Mono d d2) ∧
    (∀ (src : List ℕ) (so count : ℕ) (d : List ℕ) (off bits a : ℕ)
      (d2 : List ℕ),
      (CS.sem p cs).buf src so count d off bits a = .ok d2 → Mono d d2)
  | .deviceGray => by
    constructor
    · intro srcq so d off d2 h
      have h2 := Except.ok.inj h
      rw [← h2]
      exact mono_set3q _ _ _ _ _
    · intro src so count d off bits a d2 h
      rw [sem_gray_buf] at h
      have h2 := Except.ok.inj h
      rw [← h2]
      exact mono_convLoop _ _ _ _ _ _ _ _
  | .deviceRGB => by
    constructor
    · intro srcq so d off d2 h
      have h2 := Except.ok.inj h
      rw [← h2]
      exact mono_set3q _ _ _ _ _
    · intro src so count d off bits a d2 h
      rw [sem_rgb_buf] at h
      split at h
      · have h2 := Except.ok.inj h
        rw [← h2]
        exact mono_writeNatSeq _ _ _
      · have h2 := Except.ok.inj h
        rw [← h2]
        exact mono_convLoop _ _ _ _ _ _ _ _
  | .deviceCmyk => by
    constructor
    · intro srcq so d off d2 h
      have h2 := Except.ok.inj h
      rw [← h2]
      exact mono_set3q _ _ _ _ _
    · intro src so count d off bits a d2 h
      rw [sem_cmyk_buf] at h
      have h2 := Except.ok.inj h
      rw [← h2]
      exact mono_convLoop _ _ _ _ _ _ _ _
  | .calGray XW YW ZW G => by
    constructor
    · intro srcq so d off d2 h
      have h2 := Except.ok.inj h
      rw [← h2]
      exact mono_set3q _ _ _ _ _
    · intro src so count d off bits a d2 h
      rw [sem_calGray_buf] at h
      have h2 := Except.ok.inj h
      rw [← h2]
      exact mono_convLoop _ _ _ _ _ _ _ _
  | .calRGB dat => by
    constructor
    · intro srcq so d off d2 h
      have h2 := Except.ok.inj h
      rw [← h2]
      exact mono_set3q _ _ _ _ _
    · intro src so count d off bits a d2 h
      rw [sem_calRGB_buf] at h
      have h2 := Except.ok.inj h
      rw [← h2]
      exact mono_convLoop _ _ _ _ _ _ _ _
  | .lab dat => by
    constructor
    · intro srcq so d off d2 h
      have h2 := Except.ok.inj h
      rw [← h2]
      exact mono_set3q _ _ _ _ _
    · intro src so count d off bits a d2 h
      rw [sem_lab_buf] at h
      have h2 := Except.ok.inj h
      rw [← h2]
      exact mono_convLoop _ _ _ _ _ _ _ _
  | .indexed base hi lk => by
    have ih := mono_sem p base
    constructor
    · intro srcq so d off d2 h
      rw [sem_indexed_item] at h
      exact ih.2 _ _ _ _ _ _ _ _ h
    · intro src so count d off bits a d2 h
      rw [sem_indexed_buf] at h
      cases hol : (CS.sem p base).outLen ((CS.sem p base).ncOpt.getD 0) a with
      | error e =>
        rw [hol] at h
        cases h
      | ok delta =>
        rw [hol] at h
        simp only [Except.bind] at h
        exact mono_indexedLoop _ _ _ _ _ _
          (fun lk2 pos cnt dd doff bits2 a2 dd2 hh =>
            ih.2 lk2 pos cnt dd doff bits2 a2 dd2 hh) _ _ _ _ _ h
  | .alternate n base tint => by
    have ih := mono_sem p base
    constructor
    · intro srcq so d off d2 h
      rw [sem_alternate_item] at h
      exact ih.1 _ _ _ _ _ h
    · intro src so count d off bits a d2 h
      rw [sem_alternate_buf] at h
      split at h
      · exact mono_altLoop _ _ _ _ _ _ _
          (fun ts so2 dd off2 dd2 hh => ih.1 ts so2 dd off2 dd2 hh) _ _ _ _ _ h
      · cases hst : altLoopS (CS.sem p base).item tint n
            ((CS.sem p base).ncOpt.getD 0) (1 / ((2:ℚ)^bits - 1))
            (CS.sem p base).u01 src so 0 count
            (List.replicate ((CS.sem p base).ncOpt.getD 0 * count) 0) with
        | error e =>
          rw [hst] at h
          cases h
        | ok bbuf =>
          rw [hst] at h
          simp only [Except.bind] at h
          exact ih.2 _ _ _ _ _ _ _ _ h
  | .pattern b => by
    constructor
    · intro srcq so d off d2 h
      cases h
    · intro src so count d off bits a d2 h
      cases h

/-- C8.  For every color space variant and all inputs, every byte either
conversion writes to `dest` is in `[0, 255]`: each position of the output
buffer is the unchanged input byte or a value at most 255 (the model
stores naturals, so no byte is below 0), including the DeviceCMYK
polynomial and the Lab square-root path, whose channel values can fall
outside the byte range before the clamped 8-bit store. -/
theorem claim8_bytes_in_range (p : JsMath) (cs : CS) (srcq : List ℚ)
    (so : ℕ) (src : List ℕ) (so2 count : ℕ) (d : List ℕ)
    (off off2 bits a : ℕ) :
    (∀ i, (okD ((CS.sem p cs).item srcq so d off) d).getD i 0 = d.getD i 0
        ∨ (okD ((CS.sem p cs).item srcq so d off) d).getD i 0 ≤ 255) ∧
    (∀ i, (okD ((CS.sem p cs).buf src so2 count d off2 bits a) d).getD i 0
          = d.getD i 0
        ∨ (okD ((CS.sem p cs).buf src so2 count d off2 bits a) d).getD i 0
          ≤ 255) := by
  constructor
  · intro i
    cases hr : (CS.sem p cs).item srcq so d off with
    | error e =>
      simp [okD]
    | ok d2 =>
      have := (mono_sem p cs).1 _ _ _ _ _ hr
      simpa [okD] using this i
  · intro i
    cases hr : (CS.sem p cs).buf src so2 count d off2 bits a with
    | error e =>
      simp [okD]
    | ok d2 =>
      have := (mono_sem p cs).2 _ _ _ _ _ _ _ _ hr
      simpa [okD] using this i

/-- Head decomposition of a pixel-triple list. -/
theorem pixList_succ (B : List ℕ → ℕ → ℕ × ℕ × ℕ) (src : List ℕ)
    (so nc c : ℕ) :
    pixList B src so nc (c + 1) = B src so :: pixList B src (so + nc) nc c := by
  rw [pixList, List.range_succ_eq_map, List.map_cons, List.map_map]
  have h0 : so + 0 * nc = so := by omega
  rw [h0]
  congr 1
  apply List.map_congr_left
  intro i _
  have : so + Nat.succ i * nc = (so + nc) + i * nc := by
    rw [Nat.succ_mul]
    omega
  simp [Function.comp, this]

/-- Indexing a pixel-triple list. -/
theorem pixList_getD (B : List ℕ → ℕ → ℕ × ℕ × ℕ) (src : List ℕ)
    (so nc count c : ℕ) (hc : c < count) :
    (pixList B src so nc count).getD c (0, 0, 0) = B src (so + c * nc) := by
  rw [pixList, map_range_getD _ _ _ _ hc]

/-- Length of a pixel-triple list. -/
theorem pixList_length (B : List ℕ → ℕ → ℕ × ℕ × ℕ) (src : List ℕ)
    (so nc count : ℕ) : (pixList B src so nc count).length = count := by
  simp [pixList]

/-- Every leaf conversion loop is pixelwise. -/
theorem convLoop_pix (ncIn : ℕ) (conv : List ℚ → ℚ × ℚ × ℚ) (src : List ℕ) :
    ∀ (count so off a : ℕ) (d : List ℕ),
    convLoop ncIn conv src so off a count d
      = pixWrites (3 + a) (pixList (fun s t => tcT (conv (vecAt s t ncIn)))
          src so ncIn count) off d := by
  intro count
  induction count with
  | zero =>
    intro so off a d
    rfl
  | succ c ih =>
    intro so off a d
    rw [convLoop, pixList_succ, pixWrites, ih]
    have ha : off + 3 + a = off + (3 + a) := by omega
    rw [ha]
    congr 1
    rw [set3q_eq]
    rfl

/-- Clamping the triples before writing changes nothing. -/
theorem pixWrites_map_clamp (stride : ℕ) :
    ∀ (ts : List (ℕ × ℕ × ℕ)) (off : ℕ) (d : List ℕ),
    pixWrites stride (ts.map (fun t => (clamp255 t.1, clamp255 t.2.1, clamp255 t.2.2)))
        off d
      = pixWrites stride ts off d := by
  intro ts
  induction ts with
  | nil =>
    intro off d
    rfl
  | cons t ts ih =>
    intro off d
    rw [List.map_cons, pixWrites, pixWrites, ih]
    congr 1
    have hcc : ∀ x : ℕ, min (min x 255) 255 = min x 255 := fun x => by omega
    simp only [set3n, clamp255, hcc]

/-- The color-map application loop in `pixWrites` normal form. -/
theorem mapLoop_pix (cmap comps : List ℕ) :
    ∀ (count i dp a : ℕ) (d : List ℕ),
    mapLoop cmap comps i dp a count d
      = pixWrites (3 + a) ((List.range count).map (fun t =>
          (cmap.getD (comps.getD (i + t) 0 * 3) 0,
           cmap.getD (comps.getD (i + t) 0 * 3 + 1) 0,
           cmap.getD (comps.getD (i + t) 0 * 3 + 2) 0))) dp d := by
  intro count
  induction count with
  | zero =>
    intro i dp a d
    rfl
  | succ c ih =>
    intro i dp a d
    rw [mapLoop, List.range_succ_eq_map, List.map_cons, pixWrites, List.map_map, ih]
    have hz : i + 0 = i := by omega
    rw [hz]
    have ha : dp + 3 + a = dp + (3 + a) := by omega
    rw [ha]
    congr 1
    apply List.map_congr_left
    intro t _
    have : i + 1 + t = i + Nat.succ t := by omega
    simp [Function.comp, this]

/-- The final expansion copy loop of `fillRgb` in `pixWrites` normal
form. -/
theorem copyExpand_pix (rgbBuf : List ℕ) :
    ∀ (count rp dp a : ℕ) (d : List ℕ),
    copyExpand rgbBuf rp dp a count d
      = pixWrites (3 + a) ((List.range count).map (fun t =>
          (rgbBuf.getD (rp + t * 3) 0, rgbBuf.getD (rp + t * 3 + 1) 0,
           rgbBuf.getD (rp + t * 3 + 2) 0))) dp d := by
  intro count
  induction count with
  | zero =>
    intro rp dp a d
    rfl
  | succ c ih =>
    intro rp dp a d
    rw [copyExpand, List.range_succ_eq_map, List.map_cons, pixWrites, List.map_map, ih]
    have hz : rp + 0 * 3 = rp := by omega
    rw [hz]
    have ha : dp + 3 + a = dp + (3 + a) := by omega
    rw [ha]
    congr 1
    apply List.map_congr_left
    intro t _
    have h1 : rp + 3 + t * 3 = rp + Nat.succ t * 3 := by
      rw [Nat.succ_mul]
      omega
    simp [Function.comp, ← h1]

/-- In-bounds `getD` is `getElem`. -/
theorem getD_eq_getElem (l : List ℕ) (i : ℕ) (h : i < l.length) :
    l.getD i 0 = l[i] := by
  rw [List.getD_eq_getElem?_getD, List.getElem?_eq_getElem h]
  rfl

/-- The DeviceRGB raw-copy fast path in `pixWrites` normal form. -/
theorem writeNatSeq_triple_pix (src : List ℕ) :
    ∀ (count so off : ℕ) (d : List ℕ), so + count * 3 ≤ src.length →
    writeNatSeq d off ((src.drop so).take (count * 3))
      = pixWrites 3 (pixList (fun s t => (s.getD t 0, s.getD (t + 1) 0,
          s.getD (t + 2) 0)) src so 3 count) off d := by
  intro count
  induction count with
  | zero =>
    intro so off d _
    rfl
  | succ c ih =>
    intro so off d h
    have hm : (c + 1) * 3 = c * 3 + 3 := Nat.succ_mul c 3
    have h1 : so < src.length := by omega
    have h2 : so + 1 < src.length := by omega
    have h3 : so + 2 < src.length := by omega
    have d1 : src.drop so = src[so] :: src.drop (so + 1) :=
      List.drop_eq_getElem_cons h1
    have d2 : src.drop (so + 1) = src[so + 1] :: src.drop (so + 2) :=
      List.drop_eq_getElem_cons h2
    have d3 : src.drop (so + 2) = src[so + 2] :: src.drop (so + 3) :=
      List.drop_eq_getElem_cons h3
    rw [hm, d1, d2, d3]
    have ht : ∀ (x y z : ℕ) (rest : List ℕ),
        (x :: y :: z :: rest).take (c * 3 + 3) = x :: y :: z :: rest.take (c * 3) := by
      intro x y z rest
      have e1 : c * 3 + 3 = (c * 3 + 2) + 1 := by omega
      rw [e1, List.take_succ_cons]
      have e2 : c * 3 + 2 = (c * 3 + 1) + 1 := by omega
      rw [e2, List.take_succ_cons, List.take_succ_cons]
    rw [ht]
    have hw : ∀ (x y z : ℕ) (l : List ℕ),
        writeNatSeq d off (x :: y :: z :: l)
          = writeNatSeq (set3n d off x y z) (off + 3) l :=
      fun x y z l => rfl
    rw [hw, pixList_succ, pixWrites]
    rw [getD_eq_getElem src so h1, getD_eq_getElem src (so + 1) h2,
      getD_eq_getElem src (so + 2) h3]
    exact ih (so + 3) (off + 3) _ (by omega)

/-- Flattened indexing into the staged byte buffer. -/
theorem stagedPix_getD (tint : List ℚ → List ℚ) (n nb : ℕ) (scale : ℚ)
    (src : List ℕ) :
    ∀ (count i so j : ℕ), i < count → j < nb →
    (stagedPix tint n nb scale src so count).getD (i * nb + j) 0
      = toUint8Clamp ((tint (scaledVec n scale src (so + i * n))).getD j 0 * 255) := by
  intro count
  induction count with
  | zero =>
    intro i so j hi
    omega
  | succ c ih =>
    intro i so j hi hj
    rw [stagedPix]
    cases i with
    | zero =>
      rw [List.getD_eq_getElem?_getD, List.getElem?_append]
      have hjl : 0 * nb + j < ((List.range nb).map (fun j =>
          toUint8Clamp ((tint (scaledVec n scale src so)).getD j 0 * 255))).length := by
        simpa using (by omega : j < nb)
      rw [if_pos hjl]
      have hz : 0 * nb + j = j := by omega
      rw [hz, List.getElem?_map, List.getElem?_range hj]
      have hz2 : so + 0 * n = so := by omega
      rw [hz2]
      rfl
    | succ i =>
      rw [List.getD_eq_getElem?_getD, List.getElem?_append]
      have hlen : ((List.range nb).map (fun j =>
          toUint8Clamp ((tint (scaledVec n scale src so)).getD j 0 * 255))).length = nb := by
        simp
      have hge : ¬ ((i + 1) * nb + j < ((List.range nb).map (fun j =>
          toUint8Clamp ((tint (scaledVec n scale src so)).getD j 0 * 255))).length) := by
        rw [hlen]
        have hsm : (i + 1) * nb = i * nb + nb := by ring
        omega
      rw [if_neg hge, hlen]
      have hsub : (i + 1) * nb + j - nb = i * nb + j := by
        have hsm : (i + 1) * nb = i * nb + nb := by ring
        omega
      rw [hsub, ← List.getD_eq_getElem?_getD]
      have := ih i (so + n) j (by omega) hj
      rw [this]
      have hfin : so + n + i * n = so + (i + 1) * n := by ring
      rw [hfin]

/-- Lists bounded below a positive bound read below it everywhere. -/
theorem getD_lt_of_forall (l : List ℕ) (m : ℕ) (hm : 0 < m)
    (h : ∀ v ∈ l, v < m) (i : ℕ) : l.getD i 0 < m := by
  rw [List.getD_eq_getElem?_getD]
  cases hg : l[i]? with
  | none => simpa using hm
  | some v =>
    have := h v (List.getElem?_mem hg)
    simpa using this

/-- `getOutputLength` of one pixel's components is the output stride
`3 + alpha01`, for every covered color space. -/
theorem outLen_nc (p : JsMath) : ∀ (cs : CS) (bits a : ℕ), coveredB cs bits →
    (CS.sem p cs).outLen ((CS.sem p cs).ncOpt.getD 0) a = .ok (3 + a)
  | .deviceGray => by
    intro bits a _
    show Except.ok (1 * (3 + a)) = Except.ok (3 + a)
    rw [one_mul]
  | .deviceRGB => by
    intro bits a _
    show Except.ok (3 * (3 + a) / 3) = Except.ok (3 + a)
    rw [Nat.mul_div_cancel_left _ (by norm_num)]
  | .deviceCmyk => by
    intro bits a _
    show Except.ok (ratIdx (((4 : ℕ) : ℚ) / 4 * (3 + (a : ℚ)))) = Except.ok (3 + a)
    have h4 : ((4 : ℕ) : ℚ) / 4 = 1 := by norm_num
    rw [h4, one_mul]
    have hc : (3 : ℚ) + (a : ℚ) = (((3 + a : ℕ) : ℚ)) := by push_cast; ring
    rw [hc, ratIdx_natCast]
  | .calGray XW YW ZW G => by
    intro bits a _
    show Except.ok (1 * (3 + a)) = Except.ok (3 + a)
    rw [one_mul]
  | .calRGB dat => by
    intro bits a _
    show Except.ok (3 * (3 + a) / 3) = Except.ok (3 + a)
    rw [Nat.mul_div_cancel_left _ (by norm_num)]
  | .lab dat => by
    intro bits a _
    show Except.ok (3 * (3 + a) / 3) = Except.ok (3 + a)
    rw [Nat.mul_div_cancel_left _ (by norm_num)]
  | .indexed base hi lk => by
    intro bits a hcov
    obtain ⟨_, _, _, hb⟩ := hcov
    show (CS.sem p base).outLen (1 * (CS.sem p base).ncOpt.getD 0) a = Except.ok (3 + a)
    rw [one_mul]
    exact outLen_nc p base 8 a hb
  | .alternate n base tint => by
    intro bits a hcov
    obtain ⟨hn, hb⟩ := hcov
    show (CS.sem p base).outLen (n * (CS.sem p base).ncOpt.getD 0 / n) a
      = Except.ok (3 + a)
    rw [Nat.mul_div_cancel_left _ (by omega)]
    exact outLen_nc p base 8 a hb
  | .pattern b => by
    intro bits a hcov
    exact hcov.elim

/-- The color-map sample list reads back the sample index below `2^bpc`
when `bpc ≤ 16`. -/
theorem allColors_getD (bpc : ℕ) (hb : bpc ≤ 16) (i : ℕ) (hi : i < 2^bpc) :
    ((List.range (2^bpc)).map
        (fun i => if bpc ≤ 8 then i % 256 else i % 65536)).getD i 0 = i := by
  rw [map_range_getD _ _ _ _ hi]
  by_cases h8 : bpc ≤ 8
  · rw [if_pos h8]
    apply Nat.mod_eq_of_lt
    calc i < 2^bpc := hi
      _ ≤ 2^8 := Nat.pow_le_pow_right (by norm_num) h8
  · rw [if_neg h8]
    apply Nat.mod_eq_of_lt
    calc i < 2^bpc := hi
      _ ≤ 2^16 := Nat.pow_le_pow_right (by norm_num) hb

/-- A single-triple `pixWrites` is one clamped triple store. -/
theorem pixWrites_single (stride : ℕ) (t : ℕ × ℕ × ℕ) (off : ℕ) (d : List ℕ) :
    pixWrites stride [t] off d = set3n d off t.1 t.2.1 t.2.2 := rfl

/-- A one-pixel triple list. -/
theorem pixList_one (B : List ℕ → ℕ → ℕ × ℕ × ℕ) (src : List ℕ) (so nc : ℕ) :
    pixList B src so nc 1 = [B src so] := by
  show [B src (so + 0 * nc)] = [B src so]
  rw [Nat.zero_mul, Nat.add_zero]

/-- Pixel-triple lists built from pointwise-equal per-pixel functions are
equal. -/
theorem pixList_congr (B1 B2 : List ℕ → ℕ → ℕ × ℕ × ℕ)
    (src1 : List ℕ) (so1 nc1 : ℕ) (src2 : List ℕ) (so2 nc2 : ℕ) (count : ℕ)
    (h : ∀ c, c < count → B1 src1 (so1 + c * nc1) = B2 src2 (so2 + c * nc2)) :
    pixList B1 src1 so1 nc1 count = pixList B2 src2 so2 nc2 count := by
  rw [pixList, pixList]
  apply List.map_congr_left
  intro i hi
  exact h i (List.mem_range.mp hi)

/-- `pixWrites` only sees the clamped write values: triple lists equal
after clamping produce the same buffer. -/
theorem pixWrites_clamp_congr (stride : ℕ) (ts1 ts2 : List (ℕ × ℕ × ℕ))
    (off : ℕ) (d : List ℕ)
    (h : ts1.map (fun t => (clamp255 t.1, clamp255 t.2.1, clamp255 t.2.2))
       = ts2.map (fun t => (clamp255 t.1, clamp255 t.2.1, clamp255 t.2.2))) :
    pixWrites stride ts1 off d = pixWrites stride ts2 off d := by
  rw [← pixWrites_map_clamp stride ts1, h, pixWrites_map_clamp]

/-- The sample vector only depends on the `nc` samples it reads. -/
theorem vecAt_congr (src : List ℕ) (t : ℕ) (src2 : List ℕ) (t2 : ℕ) (nc : ℕ)
    (h : ∀ j, j < nc → src.getD (t + j) 0 = src2.getD (t2 + j) 0) :
    vecAt src t nc = vecAt src2 t2 nc := by
  rw [vecAt, vecAt]
  apply List.map_congr_left
  intro j hj
  rw [h j (List.mem_range.mp hj)]

/-- The scaled sample vector only depends on the `n` samples it reads. -/
theorem scaledVec_congr (n : ℕ) (scale : ℚ) (src : List ℕ) (so : ℕ)
    (src2 : List ℕ) (so2 : ℕ)
    (h : ∀ j, j < n → src.getD (so + j) 0 = src2.getD (so2 + j) 0) :
    scaledVec n scale src so = scaledVec n scale src2 so2 := by
  rw [scaledVec, scaledVec]
  apply List.map_congr_left
  intro j hj
  rw [h j (List.mem_range.mp hj)]

/-- At 8 bits the leaf scaling `255 / (2^bits - 1)` is the identity, so the
clamped store of the scaled byte is the integer clamp. -/
theorem u8_cast_8bit (v : ℕ) :
    toUint8Clamp (255 / ((2:ℚ)^8 - 1) * (v : ℚ)) = clamp255 v := by
  have h : (255:ℚ) / ((2:ℚ)^8 - 1) = 1 := by norm_num
  rw [h, one_mul, toUint8Clamp_natCast]

/-- The integer clamp is idempotent. -/
theorem clamp255_idem (v : ℕ) : clamp255 (clamp255 v) = clamp255 v := by
  unfold clamp255
  omega

/-- A byte value is fixed by the integer clamp. -/
theorem clamp255_of_le (v : ℕ) (h : v ≤ 255) : clamp255 v = v := by
  unfold clamp255
  omega

/-- Staged-byte row read below `nb`. -/
theorem stagedRow_getD (tint : List ℚ → List ℚ) (n nb : ℕ) (scale : ℚ)
    (src : List ℕ) (t j : ℕ) (hj : j < nb) :
    (stagedRow tint n nb scale src t).getD j 0
      = toUint8Clamp ((tint (scaledVec n scale src t)).getD j 0 * 255) := by
  rw [stagedRow, map_range_getD _ _ _ _ hj]

/-- Every staged-row byte read is at most 255, at any index. -/
theorem stagedRow_getD_le (tint : List ℚ → List ℚ) (n nb : ℕ) (scale : ℚ)
    (src : List ℕ) (t j : ℕ) :
    (stagedRow tint n nb scale src t).getD j 0 ≤ 255 := by
  apply getD_le_of_forall_mem
  intro v hv
  rw [stagedRow, List.mem_map] at hv
  obtain ⟨i, _, hi⟩ := hv
  rw [← hi]
  exact toUint8Clamp_le _

/-- The staged row only depends on the `n` samples it reads. -/
theorem stagedRow_congr (tint : List ℚ → List ℚ) (n nb : ℕ) (scale : ℚ)
    (src : List ℕ) (t : ℕ) (src2 : List ℕ) (t2 : ℕ)
    (h : ∀ j, j < n → src.getD (t + j) 0 = src2.getD (t2 + j) 0) :
    stagedRow tint n nb scale src t = stagedRow tint n nb scale src2 t2 := by
  rw [stagedRow, stagedRow, scaledVec_congr n scale src t src2 t2 h]

/-- The three-component staged store (`TypedArray.set` of the staged RGB
bytes) in `pixWrites` normal form. -/
theorem stagedPix3_write (tint : List ℚ → List ℚ) (n : ℕ) (scale : ℚ)
    (src : List ℕ) : ∀ (count so off : ℕ) (d : List ℕ),
    writeNatSeq d off (stagedPix tint n 3 scale src so count)
      = pixWrites 3 (pixList (fun s t =>
          ((stagedRow tint n 3 scale s t).getD 0 0,
           (stagedRow tint n 3 scale s t).getD 1 0,
           (stagedRow tint n 3 scale s t).getD 2 0)) src so n count) off d := by
  intro count
  induction count with
  | zero =>
    intro so off d
    rfl
  | succ c ih =>
    intro so off d
    rw [stagedPix]
    have hhead : (List.range 3).map
          (fun j => toUint8Clamp ((tint (scaledVec n scale src so)).getD j 0 * 255))
          ++ stagedPix tint n 3 scale src (so + n) c
        = toUint8Clamp ((tint (scaledVec n scale src so)).getD 0 0 * 255)
          :: toUint8Clamp ((tint (scaledVec n scale src so)).getD 1 0 * 255)
          :: toUint8Clamp ((tint (scaledVec n scale src so)).getD 2 0 * 255)
          :: stagedPix tint n 3 scale src (so + n) c := rfl
    rw [hhead]
    have hw : ∀ (x y z : ℕ) (l : List ℕ),
        writeNatSeq d off (x :: y :: z :: l)
          = writeNatSeq (set3n d off x y z) (off + 3) l :=
      fun x y z l => rfl
    rw [hw, pixList_succ, pixWrites, ih]
    rw [stagedRow_getD _ _ _ _ _ _ 0 (by omega),
      stagedRow_getD _ _ _ _ _ _ 1 (by omega),
      stagedRow_getD _ _ _ _ _ _ 2 (by omega)]

/-- The Indexed bulk loop in `pixWrites` normal form: if every in-range
sample satisfies `P` and each `P`-sample's base lookup call is one triple
store, the loop is pixelwise. -/
theorem indexedLoop_pix
    (bb : List ℕ → ℕ → ℕ → List ℕ → ℕ → ℕ → ℕ → Except Unit (List ℕ))
    (nb a : ℕ) (lk : List ℕ) (P : ℕ → Prop) (B0 : ℕ → ℕ × ℕ × ℕ)
    (hstep : ∀ v, P v → ∀ (d : List ℕ) (doff : ℕ),
      bb lk (v * nb) 1 d doff 8 a
        = .ok (set3n d doff (B0 v).1 (B0 v).2.1 (B0 v).2.2))
    (src : List ℕ) :
    ∀ (count so off : ℕ) (d : List ℕ),
    (∀ t, so ≤ t → t < so + count → P (src.getD t 0)) →
    indexedLoopS bb nb (3 + a) a lk src so off count d
      = .ok (pixWrites (3 + a)
          (pixList (fun s t => B0 (s.getD t 0)) src so 1 count) off d) := by
  intro count
  induction count with
  | zero =>
    intro so off d _
    rfl
  | succ c ih =>
    intro so off d hP
    rw [indexedLoopS,
      hstep (src.getD so 0) (hP so (le_refl so) (by omega)) d off]
    show indexedLoopS bb nb (3 + a) a lk src (so + 1) (off + (3 + a)) c
        (set3n d off (B0 (src.getD so 0)).1 (B0 (src.getD so 0)).2.1
          (B0 (src.getD so 0)).2.2)
      = _
    rw [ih (so + 1) (off + (3 + a)) _ (fun t h1 h2 => hP t (by omega) (by omega))]
    rw [pixList_succ, pixWrites]

/-- The staging pass of the non-passthrough Alternate branch produces
exactly the flat staged byte buffer. -/
theorem alt_staged_buf (p : JsMath) (base : CS) (tint : List ℚ → List ℚ)
    (n : ℕ) (scale : ℚ) (src : List ℕ) (so count : ℕ)
    (h01 : (CS.sem p base).u01 = true) :
    altLoopS (CS.sem p base).item tint n ((CS.sem p base).ncOpt.getD 0) scale
        (CS.sem p base).u01 src so 0 count
        (List.replicate (((CS.sem p base).ncOpt.getD 0) * count) 0)
      = .ok (stagedPix tint n ((CS.sem p base).ncOpt.getD 0) scale src so count) := by
  rw [h01, altLoopS_u01]
  congr 1
  rw [writeNatSeq_front _ _
    (by rw [stagedPix_length, List.length_replicate, Nat.mul_comm])]
  rw [map_clamp255_of_le _ (stagedPix_le tint n _ scale src count so),
    stagedPix_length]
  rw [List.drop_eq_nil_of_le
    (by rw [List.length_replicate, Nat.mul_comm]), List.append_nil]

/-- The delegating (`else`) branch of `AlternateCS.getRgbBuffer` in
`pixWrites` normal form, given a pixelwise base at 8 bits. -/
theorem alt_else_pix (p : JsMath) (base : CS) (tint : List ℚ → List ℚ)
    (n : ℕ) (scale : ℚ) (a : ℕ) (Bb : List ℕ → ℕ → ℕ × ℕ × ℕ)
    (h01 : (CS.sem p base).u01 = true)
    (hval : BvalP Bb ((CS.sem p base).ncOpt.getD 0))
    (hpt : PointP (CS.sem p base) 8 a ((CS.sem p base).ncOpt.getD 0) Bb)
    (src : List ℕ) (so count : ℕ) (d : List ℕ) (off : ℕ) :
    (altLoopS (CS.sem p base).item tint n ((CS.sem p base).ncOpt.getD 0) scale
        (CS.sem p base).u01 src so 0 count
        (List.replicate (((CS.sem p base).ncOpt.getD 0) * count) 0)).bind
      (fun bbuf => (CS.sem p base).buf bbuf 0 count d off 8 a)
      = .ok (pixWrites (3 + a)
          (pixList (fun s t =>
            Bb (stagedRow tint n ((CS.sem p base).ncOpt.getD 0) scale s t) 0)
            src so n count) off d) := by
  rw [alt_staged_buf p base tint n scale src so count h01]
  show (CS.sem p base).buf
      (stagedPix tint n ((CS.sem p base).ncOpt.getD 0) scale src so count)
      0 count d off 8 a = _
  rw [hpt (stagedPix tint n ((CS.sem p base).ncOpt.getD 0) scale src so count)
    0 count d off
    ⟨by rw [stagedPix_length, Nat.zero_add],
     fun t _ ht => lt_of_le_of_lt
       (getD_le_of_forall_mem _
         (stagedPix_le tint n _ scale src count so) t) (by norm_num)⟩]
  congr 1
  refine congrArg (fun ts => pixWrites (3 + a) ts off d) ?_
  apply pixList_congr
  intro c hc
  apply hval
  intro j hj
  rw [Nat.zero_add, Nat.zero_add]
  rw [stagedPix_getD tint n ((CS.sem p base).ncOpt.getD 0) scale src count c so
    j hc hj]
  rw [stagedRow_getD tint n ((CS.sem p base).ncOpt.getD 0) scale src
    (so + c * n) j hj]

/-- Every leaf instance whose bulk conversion is a `convLoop` is pixelwise,
with the clamp-rounded conversion of the sample vector as per-pixel byte
function. -/
theorem leaf_point (s : Sem) (ncIn : ℕ) (conv : List ℚ → ℚ × ℚ × ℚ)
    (bits : ℕ)
    (hbuf : ∀ (src : List ℕ) (so count : ℕ) (d : List ℕ) (off a : ℕ),
      s.buf src so count d off bits a
        = .ok (convLoop ncIn conv src so off a count d)) :
    BvalP (fun sl t => tcT (conv (vecAt sl t ncIn))) ncIn ∧
    BbndP (fun sl t => tcT (conv (vecAt sl t ncIn))) ∧
    (∀ a, PointP s bits a ncIn (fun sl t => tcT (conv (vecAt sl t ncIn)))) := by
  refine ⟨?_, ?_, ?_⟩
  · intro src so src2 so2 h
    show tcT (conv (vecAt src so ncIn)) = tcT (conv (vecAt src2 so2 ncIn))
    rw [vecAt_congr src so src2 so2 ncIn h]
  · intro src so
    exact ⟨toUint8Clamp_le _, toUint8Clamp_le _, toUint8Clamp_le _⟩
  · intro a src so count d off _
    rw [hbuf, convLoop_pix]

/-- Component read of the sample vector. -/
theorem vecAt_getD (src : List ℕ) (t nc j : ℕ) (hj : j < nc) :
    (vecAt src t nc).getD j 0 = ((src.getD (t + j) 0 : ℕ) : ℚ) := by
  rw [vecAt, map_range_getD _ _ _ _ hj]

/-- DeviceRGB is pixelwise at every bit depth and alpha stride: the 8-bit
alpha-free raw-copy fast path and the general `convLoop` path write the
same clamped bytes. -/
theorem rgb_point (p : JsMath) (bits : ℕ) :
    BvalP (fun sl t => tcT ((fun xs : List ℚ =>
        (255 / ((2:ℚ)^bits - 1) * xs.getD 0 0,
         255 / ((2:ℚ)^bits - 1) * xs.getD 1 0,
         255 / ((2:ℚ)^bits - 1) * xs.getD 2 0)) (vecAt sl t 3))) 3 ∧
    BbndP (fun sl t => tcT ((fun xs : List ℚ =>
        (255 / ((2:ℚ)^bits - 1) * xs.getD 0 0,
         255 / ((2:ℚ)^bits - 1) * xs.getD 1 0,
         255 / ((2:ℚ)^bits - 1) * xs.getD 2 0)) (vecAt sl t 3))) ∧
    (∀ a, PointP (CS.sem p .deviceRGB) bits a 3
      (fun sl t => tcT ((fun xs : List ℚ =>
        (255 / ((2:ℚ)^bits - 1) * xs.getD 0 0,
         255 / ((2:ℚ)^bits - 1) * xs.getD 1 0,
         255 / ((2:ℚ)^bits - 1) * xs.getD 2 0)) (vecAt sl t 3)))) := by
  refine ⟨?_, ?_, ?_⟩
  · intro src so src2 so2 h
    show tcT _ = tcT _
    rw [vecAt_congr src so src2 so2 3 h]
  · intro src so
    exact ⟨toUint8Clamp_le _, toUint8Clamp_le _, toUint8Clamp_le _⟩
  · intro a src so count d off hOK
    rw [sem_rgb_buf]
    by_cases h8 : bits = 8 ∧ a = 0
    · obtain ⟨hb8, ha0⟩ := h8
      subst hb8
      subst ha0
      rw [if_pos ⟨rfl, rfl⟩]
      rw [writeNatSeq_triple_pix src count so off d hOK.1]
      congr 1
      apply pixWrites_clamp_congr
      rw [pixList, pixList, List.map_map, List.map_map]
      apply List.map_congr_left
      intro i _
      have key : ∀ (t : ℕ),
          ((fun tt : ℕ × ℕ × ℕ => (clamp255 tt.1, clamp255 tt.2.1, clamp255 tt.2.2))
            ((src.getD t 0, src.getD (t+1) 0, src.getD (t+2) 0) : ℕ × ℕ × ℕ))
          = ((fun tt : ℕ × ℕ × ℕ => (clamp255 tt.1, clamp255 tt.2.1, clamp255 tt.2.2))
            (tcT ((fun xs : List ℚ =>
              (255 / ((2:ℚ)^8 - 1) * xs.getD 0 0,
               255 / ((2:ℚ)^8 - 1) * xs.getD 1 0,
               255 / ((2:ℚ)^8 - 1) * xs.getD 2 0)) (vecAt src t 3)))) := by
        intro t
        show (clamp255 (src.getD t 0), clamp255 (src.getD (t+1) 0),
              clamp255 (src.getD (t+2) 0))
          = (clamp255 (toUint8Clamp (255 / ((2:ℚ)^8 - 1) * (vecAt src t 3).getD 0 0)),
             clamp255 (toUint8Clamp (255 / ((2:ℚ)^8 - 1) * (vecAt src t 3).getD 1 0)),
             clamp255 (toUint8Clamp (255 / ((2:ℚ)^8 - 1) * (vecAt src t 3).getD 2 0)))
        rw [vecAt_getD src t 3 0 (by omega), vecAt_getD src t 3 1 (by omega),
          vecAt_getD src t 3 2 (by omega)]
        rw [u8_cast_8bit, u8_cast_8bit, u8_cast_8bit]
        rw [clamp255_idem, clamp255_idem, clamp255_idem]
        simp
      exact key (so + i * 3)
    · rw [if_neg h8, convLoop_pix]

/-- Alternate over DeviceRGB (the passthrough configuration) is pixelwise
at both alpha strides, with the raw staged bytes as per-pixel function:
the `alpha01 === 0` direct staging and the stage-then-convert path agree. -/
theorem alt_rgb_point (p : JsMath) (tint : List ℚ → List ℚ) (n bits : ℕ) :
    ∃ B, BvalP B n ∧ BbndP B ∧
      PointP (CS.sem p (.alternate n CS.deviceRGB tint)) bits 0 n B ∧
      PointP (CS.sem p (.alternate n CS.deviceRGB tint)) bits 1 n B := by
  obtain ⟨hval8, hbnd8, hpt8⟩ := rgb_point p 8
  refine ⟨fun sl t =>
      ((stagedRow tint n 3 (1 / ((2:ℚ)^bits - 1)) sl t).getD 0 0,
       (stagedRow tint n 3 (1 / ((2:ℚ)^bits - 1)) sl t).getD 1 0,
       (stagedRow tint n 3 (1 / ((2:ℚ)^bits - 1)) sl t).getD 2 0),
    ?_, ?_, ?_, ?_⟩
  · intro src so src2 so2 h
    show ((stagedRow tint n 3 (1 / ((2:ℚ)^bits - 1)) src so).getD 0 0,
          (stagedRow tint n 3 (1 / ((2:ℚ)^bits - 1)) src so).getD 1 0,
          (stagedRow tint n 3 (1 / ((2:ℚ)^bits - 1)) src so).getD 2 0) = _
    rw [stagedRow_congr tint n 3 _ src so src2 so2 h]
  · intro src so
    exact ⟨stagedRow_getD_le tint n 3 (1 / ((2:ℚ)^bits - 1)) src so 0,
      stagedRow_getD_le tint n 3 (1 / ((2:ℚ)^bits - 1)) src so 1,
      stagedRow_getD_le tint n 3 (1 / ((2:ℚ)^bits - 1)) src so 2⟩
  · intro src so count d off _
    rw [sem_alternate_buf]
    have hc : (((CS.sem p CS.deviceRGB).passthrough 8
        || !(CS.sem p CS.deviceRGB).u01) && ((0:ℕ) == 0)) = true := rfl
    rw [if_pos hc]
    show altLoopS (CS.sem p CS.deviceRGB).item tint n 3 (1 / ((2:ℚ)^bits - 1))
        true src so off count d = _
    rw [altLoopS_u01]
    congr 1
    rw [stagedPix3_write]
  · intro src so count d off _
    rw [sem_alternate_buf]
    have hc : (((CS.sem p CS.deviceRGB).passthrough 8
        || !(CS.sem p CS.deviceRGB).u01) && ((1:ℕ) == 0)) = false := rfl
    rw [if_neg (by rw [hc]; simp)]
    rw [alt_else_pix p CS.deviceRGB tint n (1 / ((2:ℚ)^bits - 1)) 1 _
      rfl hval8 (hpt8 1) src so count d off]
    congr 1
    apply pixWrites_clamp_congr
    rw [pixList, pixList, List.map_map, List.map_map]
    apply List.map_congr_left
    intro i _
    have key : ∀ (t : ℕ),
        ((fun tt : ℕ × ℕ × ℕ => (clamp255 tt.1, clamp255 tt.2.1, clamp255 tt.2.2))
          ((fun sl2 t2 => tcT ((fun xs : List ℚ =>
            (255 / ((2:ℚ)^8 - 1) * xs.getD 0 0,
             255 / ((2:ℚ)^8 - 1) * xs.getD 1 0,
             255 / ((2:ℚ)^8 - 1) * xs.getD 2 0)) (vecAt sl2 t2 3)))
            (stagedRow tint n 3 (1 / ((2:ℚ)^bits - 1)) src t) 0))
        = ((fun tt : ℕ × ℕ × ℕ => (clamp255 tt.1, clamp255 tt.2.1, clamp255 tt.2.2))
          ((stagedRow tint n 3 (1 / ((2:ℚ)^bits - 1)) src t).getD 0 0,
           (stagedRow tint n 3 (1 / ((2:ℚ)^bits - 1)) src t).getD 1 0,
           (stagedRow tint n 3 (1 / ((2:ℚ)^bits - 1)) src t).getD 2 0)) := by
      intro t
      show (clamp255 (toUint8Clamp (255 / ((2:ℚ)^8 - 1)
              * (vecAt (stagedRow tint n 3 (1 / ((2:ℚ)^bits - 1)) src t) 0 3).getD 0 0)),
            clamp255 (toUint8Clamp (255 / ((2:ℚ)^8 - 1)
              * (vecAt (stagedRow tint n 3 (1 / ((2:ℚ)^bits - 1)) src t) 0 3).getD 1 0)),
            clamp255 (toUint8Clamp (255 / ((2:ℚ)^8 - 1)
              * (vecAt (stagedRow tint n 3 (1 / ((2:ℚ)^bits - 1)) src t) 0 3).getD 2 0)))
          = _
      rw [vecAt_getD _ 0 3 0 (by omega), vecAt_getD _ 0 3 1 (by omega),
        vecAt_getD _ 0 3 2 (by omega)]
      rw [u8_cast_8bit, u8_cast_8bit, u8_cast_8bit]
      rw [clamp255_idem, clamp255_idem, clamp255_idem]
    exact key (so + i * n)

/-- Alternate over Lab (the only base that does not use the zero-to-one
range) is pixelwise at alpha stride 0: the `alpha01 === 0` branch delegates
each tinted pixel to the Lab `getRgbItem`. -/
theorem alt_lab_point (p : JsMath) (dat : LabData) (tint : List ℚ → List ℚ)
    (n bits : ℕ) :
    ∃ B, BvalP B n ∧ BbndP B ∧
      PointP (CS.sem p (.alternate n (.lab dat) tint)) bits 0 n B := by
  refine ⟨fun sl t => labPix p dat (tint (scaledVec n (1 / ((2:ℚ)^bits - 1)) sl t)),
    ?_, ?_, ?_⟩
  · intro src so src2 so2 h
    show labPix p dat (tint (scaledVec n (1 / ((2:ℚ)^bits - 1)) src so)) = _
    rw [scaledVec_congr n (1 / ((2:ℚ)^bits - 1)) src so src2 so2 h]
  · intro src so
    exact ⟨toUint8Clamp_le _, toUint8Clamp_le _, toUint8Clamp_le _⟩
  · intro src so count d off _
    rw [sem_alternate_buf]
    have hc : (((CS.sem p (CS.lab dat)).passthrough 8
        || !(CS.sem p (CS.lab dat)).u01) && ((0:ℕ) == 0)) = true := rfl
    rw [if_pos hc]
    show altLoopS (CS.sem p (CS.lab dat)).item tint n 3 (1 / ((2:ℚ)^bits - 1))
        false src so off count d = _
    rw [altLoopS_lab]
    rfl

/-- Only `LabCS` reports `usesZeroToOneRange` false. -/
theorem sem_u01_false (p : JsMath) (c : CS) (h : (CS.sem p c).u01 = false) :
    ∃ dat, c = CS.lab dat := by
  cases c <;> first
    | exact ⟨_, rfl⟩
    | simp [CS.sem] at h

/-- Every covered instance's bulk conversion is pixelwise: some per-pixel
byte function reads only the pixel's own samples, produces bytes, and
generates the bulk output — at alpha stride 0 always, and at alpha
stride 1 when no embedded Alternate sits over a non-zero-to-one base. -/
theorem point_package (p : JsMath) : ∀ (cs : CS) (bits : ℕ), coveredB cs bits →
    ∃ B, BvalP B cs.nc ∧ BbndP B ∧
      PointP (CS.sem p cs) bits 0 cs.nc B ∧
      (noBadAlt cs → PointP (CS.sem p cs) bits 1 cs.nc B)
  | .deviceGray => by
    intro bits _
    obtain ⟨h1, h2, h3⟩ := leaf_point (CS.sem p .deviceGray) 1
      (fun xs => (255 / ((2:ℚ)^bits - 1) * xs.getD 0 0,
                  255 / ((2:ℚ)^bits - 1) * xs.getD 0 0,
                  255 / ((2:ℚ)^bits - 1) * xs.getD 0 0)) bits
      (fun src so count d off a => sem_gray_buf p src so count d off bits a)
    exact ⟨_, h1, h2, h3 0, fun _ => h3 1⟩
  | .deviceRGB => by
    intro bits _
    obtain ⟨h1, h2, h3⟩ := rgb_point p bits
    exact ⟨_, h1, h2, h3 0, fun _ => h3 1⟩
  | .deviceCmyk => by
    intro bits _
    obtain ⟨h1, h2, h3⟩ := leaf_point (CS.sem p .deviceCmyk) 4
      (fun xs => cmykConvert (xs.getD 0 0 / ((2:ℚ)^bits - 1))
        (xs.getD 1 0 / ((2:ℚ)^bits - 1))
        (xs.getD 2 0 / ((2:ℚ)^bits - 1))
        (xs.getD 3 0 / ((2:ℚ)^bits - 1))) bits
      (fun src so count d off a => sem_cmyk_buf p src so count d off bits a)
    exact ⟨_, h1, h2, h3 0, fun _ => h3 1⟩
  | .calGray XW YW ZW G => by
    intro bits _
    obtain ⟨h1, h2, h3⟩ := leaf_point (CS.sem p (.calGray XW YW ZW G)) 1
      (fun xs =>
        let v := calGrayConvert p YW G (xs.getD 0 0 / ((2:ℚ)^bits - 1))
        (v, v, v)) bits
      (fun src so count d off a => sem_calGray_buf p XW YW ZW G src so count d off bits a)
    exact ⟨_, h1, h2, h3 0, fun _ => h3 1⟩
  | .calRGB dat => by
    intro bits _
    obtain ⟨h1, h2, h3⟩ := leaf_point (CS.sem p (.calRGB dat)) 3
      (fun xs => calRGBConvert p dat (xs.getD 0 0 / ((2:ℚ)^bits - 1))
        (xs.getD 1 0 / ((2:ℚ)^bits - 1)) (xs.getD 2 0 / ((2:ℚ)^bits - 1))) bits
      (fun src so count d off a => sem_calRGB_buf p dat src so count d off bits a)
    exact ⟨_, h1, h2, h3 0, fun _ => h3 1⟩
  | .lab dat => by
    intro bits _
    obtain ⟨h1, h2, h3⟩ := leaf_point (CS.sem p (.lab dat)) 3
      (fun xs => labConvert p dat (some (2^bits - 1)) (xs.getD 0 0)
        (xs.getD 1 0) (xs.getD 2 0)) bits
      (fun src so count d off a => sem_lab_buf p dat src so count d off bits a)
    exact ⟨_, h1, h2, h3 0, fun _ => h3 1⟩
  | .indexed base hi lk => by
    intro bits hcov
    obtain ⟨hhi, hlen, hbytes, hcb⟩ := hcov
    obtain ⟨Bb, hval, hbnd, hp0, hp1⟩ := point_package p base 8 hcb
    have hOKlk : ∀ v : ℕ, v < 2^bits → srcOKn 8 base.nc lk (v * base.nc) 1 := by
      intro v hv
      constructor
      · rw [hlen]
        have h1 : v * base.nc + 1 * base.nc = (v + 1) * base.nc := by ring
        rw [h1]
        have h2 : v + 1 ≤ hi := by omega
        calc (v + 1) * base.nc ≤ hi * base.nc := Nat.mul_le_mul_right _ h2
          _ = base.nc * hi := Nat.mul_comm hi base.nc
      · intro t _ _
        exact getD_lt_of_forall lk (2^8) (by norm_num) hbytes t
    have key : ∀ (a : ℕ), PointP (CS.sem p base) 8 a base.nc Bb →
        PointP (CS.sem p (.indexed base hi lk)) bits a 1
          (fun sl t => Bb lk (sl.getD t 0 * base.nc)) := by
      intro a hpt src so count d off hOK
      have hstep : ∀ v, v < 2^bits → ∀ (d2 : List ℕ) (doff : ℕ),
          (CS.sem p base).buf lk (v * base.nc) 1 d2 doff 8 a
            = .ok (set3n d2 doff (Bb lk (v * base.nc)).1
                (Bb lk (v * base.nc)).2.1 (Bb lk (v * base.nc)).2.2) := by
        intro v hv d2 doff
        rw [hpt lk (v * base.nc) 1 d2 doff (hOKlk v hv)]
        rw [pixList_one, pixWrites_single]
      have hsrc : ∀ t, so ≤ t → t < so + count → src.getD t 0 < 2^bits := by
        intro t h1 h2
        exact hOK.2 t h1 (by omega)
      rw [sem_indexed_buf, outLen_nc p base 8 a hcb]
      show indexedLoopS (CS.sem p base).buf ((CS.sem p base).ncOpt.getD 0)
          (3 + a) a lk src so off count d = _
      rw [show (CS.sem p base).ncOpt.getD 0 = base.nc from by rw [sem_ncOpt]; rfl]
      exact indexedLoop_pix (CS.sem p base).buf base.nc a lk
        (fun v => v < 2^bits) (fun v => Bb lk (v * base.nc)) hstep src count so
        off d hsrc
    refine ⟨fun sl t => Bb lk (sl.getD t 0 * base.nc), ?_, ?_, key 0 hp0,
      fun hnb2 => key 1 (hp1 hnb2)⟩
    · intro src so src2 so2 h
      have h0 := h 0 (show (0:ℕ) < 1 by omega)
      rw [Nat.add_zero, Nat.add_zero] at h0
      show Bb lk (src.getD so 0 * base.nc) = Bb lk (src2.getD so2 0 * base.nc)
      rw [h0]
    · intro src so
      exact hbnd lk _
  | .alternate n base tint => by
    intro bits hcov
    obtain ⟨hn, hcb⟩ := hcov
    by_cases h01 : (CS.sem p base).u01 = true
    · by_cases hpass : (CS.sem p base).passthrough 8 = true
      · have hbase : base = CS.deviceRGB := ((sem_pass_iff p base 8).mp hpass).1
        subst hbase
        obtain ⟨B4, hv, hb, hpt0, hpt1⟩ := alt_rgb_point p tint n bits
        exact ⟨B4, hv, hb, hpt0, fun _ => hpt1⟩
      · have hpassf : (CS.sem p base).passthrough 8 = false := by
          cases hx : (CS.sem p base).passthrough 8
          · rfl
          · exact absurd hx hpass
        obtain ⟨Bb, hval, hbnd, hp0, hp1⟩ := point_package p base 8 hcb
        have hval2 : BvalP Bb ((CS.sem p base).ncOpt.getD 0) := by
          rw [sem_ncOpt]
          exact hval
        have key : ∀ (a : ℕ), PointP (CS.sem p base) 8 a base.nc Bb →
            PointP (CS.sem p (.alternate n base tint)) bits a n
              (fun sl t => Bb (stagedRow tint n ((CS.sem p base).ncOpt.getD 0)
                (1 / ((2:ℚ)^bits - 1)) sl t) 0) := by
          intro a hpt src so count d off _
          have hpt2 : PointP (CS.sem p base) 8 a ((CS.sem p base).ncOpt.getD 0) Bb := by
            rw [sem_ncOpt]
            exact hpt
          have hcond : (((CS.sem p base).passthrough 8
              || !(CS.sem p base).u01) && (a == 0)) = false := by
            rw [hpassf, h01]
            rfl
          rw [sem_alternate_buf, if_neg (by rw [hcond]; simp)]
          exact alt_else_pix p base tint n (1 / ((2:ℚ)^bits - 1)) a Bb h01 hval2
            hpt2 src so count d off
        refine ⟨fun sl t => Bb (stagedRow tint n ((CS.sem p base).ncOpt.getD 0)
            (1 / ((2:ℚ)^bits - 1)) sl t) 0, ?_, ?_, key 0 hp0,
          fun hnb2 => key 1 (hp1 hnb2.2)⟩
        · intro src so src2 so2 h
          show Bb (stagedRow tint n ((CS.sem p base).ncOpt.getD 0)
              (1 / ((2:ℚ)^bits - 1)) src so) 0 = _
          rw [stagedRow_congr tint n ((CS.sem p base).ncOpt.getD 0)
            (1 / ((2:ℚ)^bits - 1)) src so src2 so2 h]
        · intro src so
          exact hbnd _ 0
    · have hfalse : (CS.sem p base).u01 = false := by
        cases hx : (CS.sem p base).u01
        · rfl
        · exact absurd hx h01
      obtain ⟨dat, rfl⟩ := sem_u01_false p base hfalse
      obtain ⟨B4, hv, hb, hpt0⟩ := alt_lab_point p dat tint n bits
      refine ⟨B4, hv, hb, hpt0, fun hnb2 => absurd hnb2.1 (by simp [CS.u01])⟩
  | .pattern b => by
    intro bits hcov
    exact hcov.elim

/-- Clamped on store, the raw byte triple and the 8-bit scaled conversion
of the same three samples agree. -/
theorem clampT_rgb8 (src : List ℕ) (t : ℕ) :
    ((fun tt : ℕ × ℕ × ℕ => (clamp255 tt.1, clamp255 tt.2.1, clamp255 tt.2.2))
      ((src.getD t 0, src.getD (t+1) 0, src.getD (t+2) 0) : ℕ × ℕ × ℕ))
    = ((fun tt : ℕ × ℕ × ℕ => (clamp255 tt.1, clamp255 tt.2.1, clamp255 tt.2.2))
      (tcT ((fun xs : List ℚ =>
        (255 / ((2:ℚ)^8 - 1) * xs.getD 0 0,
         255 / ((2:ℚ)^8 - 1) * xs.getD 1 0,
         255 / ((2:ℚ)^8 - 1) * xs.getD 2 0)) (vecAt src t 3)))) := by
  show (clamp255 (src.getD t 0), clamp255 (src.getD (t+1) 0),
        clamp255 (src.getD (t+2) 0))
    = (clamp255 (toUint8Clamp (255 / ((2:ℚ)^8 - 1) * (vecAt src t 3).getD 0 0)),
       clamp255 (toUint8Clamp (255 / ((2:ℚ)^8 - 1) * (vecAt src t 3).getD 1 0)),
       clamp255 (toUint8Clamp (255 / ((2:ℚ)^8 - 1) * (vecAt src t 3).getD 2 0)))
  rw [vecAt_getD src t 3 0 (by omega), vecAt_getD src t 3 1 (by omega),
    vecAt_getD src t 3 2 (by omega)]
  rw [u8_cast_8bit, u8_cast_8bit, u8_cast_8bit]
  rw [clamp255_idem, clamp255_idem, clamp255_idem]
  simp

/-- C3, as amended.  With `width = originalWidth` and `height =
originalHeight` (no resizing) and `actualHeight = originalHeight`,
`fillRgb` writes into `dest` exactly the bytes of the direct
`getRgbBuffer` call on the component samples — including when the
one-component color-map optimization path is taken — provided the samples
fit the declared bit depth (`bpc ≤ 16`), every embedded Indexed palette
covers the sample domain with a fully sized byte lookup, embedded
Alternate spaces have a colorant, Pattern is excluded, and `alpha01 = 1`
is only used when no embedded Alternate space sits over a
non-zero-to-one-range base. -/
theorem claim3_amended (p : JsMath) (cs : CS) (bpc origW origH actualH : ℕ)
    (comps dest : List ℕ) (a : ℕ)
    (hcov : coveredB cs bpc) (hb16 : bpc ≤ 16) (hact : actualH = origH)
    (hOK : srcOKn bpc cs.nc comps 0 (origW * origH))
    (ha : a = 0 ∨ (a = 1 ∧ noBadAlt cs)) :
    fillRgbS (CS.sem p cs) dest origW origH origW origH actualH bpc comps a
      = (CS.sem p cs).buf comps 0 (origW * actualH) dest 0 bpc a := by
  rw [hact]
  obtain ⟨B, hval, hbnd, hp0, hp1c⟩ := point_package p cs bpc hcov
  have hpt : PointP (CS.sem p cs) bpc a cs.nc B := by
    rcases ha with h0 | ⟨h1, hnb⟩
    · subst h0
      exact hp0
    · subst h1
      exact hp1c hnb
  have hnr : ¬ (origH ≠ origH ∨ origW ≠ origW) := by simp
  simp only [fillRgbS]
  by_cases hp : (CS.sem p cs).passthrough bpc = true
  · obtain ⟨hcsr, hb8⟩ := (sem_pass_iff p cs bpc).mp hp
    subst hcsr
    subst hb8
    rw [if_pos hp, if_neg hnr]
    obtain ⟨hval8, hbnd8, hpt8⟩ := rgb_point p 8
    rw [hpt8 a comps 0 (origW * origH) dest 0 hOK]
    rw [copyExpand_pix]
    congr 1
    apply pixWrites_clamp_congr
    rw [pixList, List.map_map, List.map_map]
    apply List.map_congr_left
    intro i _
    exact clampT_rgb8 comps (0 + i * 3)
  · rw [if_neg hp]
    by_cases hcm : ((CS.sem p cs).ncOpt = some 1 ∧ 2^bpc < origW * origH ∧
        (CS.sem p cs).name ≠ nmDeviceGray ∧ (CS.sem p cs).name ≠ nmDeviceRGB)
    · have hnc1 : cs.nc = 1 := by
        show cs.ncOpt.getD 0 = 1
        rw [← sem_ncOpt p cs, hcm.1]
        rfl
      rw [hnc1] at hval hpt hp0 hOK
      rw [if_pos hcm]
      have hOKall : srcOKn bpc 1 ((List.range (2^bpc)).map
          (fun i => if bpc ≤ 8 then i % 256 else i % 65536)) 0 (2^bpc) := by
        constructor
        · simp
        · intro t _ ht
          have ht' : t < 2^bpc := by omega
          rw [allColors_getD bpc hb16 t ht']
          exact ht'
      rw [hp0 _ 0 (2^bpc) _ 0 hOKall]
      simp only [Except.bind]
      rw [if_neg hnr]
      rw [mapLoop_pix]
      rw [hpt comps 0 (origW * origH) dest 0 hOK]
      congr 1
      apply pixWrites_clamp_congr
      conv_rhs => rw [pixList]
      rw [List.map_map, List.map_map]
      apply List.map_congr_left
      intro i hir
      have hi : i < origW * origH := List.mem_range.mp hir
      have hv : comps.getD (0 + i) 0 < 2^bpc :=
        hOK.2 (0 + i) (by omega) (by omega)
      have hcl : ∀ u, u < 3 →
          (pixWrites (3 + 0) (pixList B ((List.range (2^bpc)).map
              (fun i => if bpc ≤ 8 then i % 256 else i % 65536)) 0 1 (2^bpc))
            0 (List.replicate (2^bpc * 3) 0)).getD (comps.getD (0 + i) 0 * 3 + u) 0
          = clamp255 (comp3 (B ((List.range (2^bpc)).map
              (fun i => if bpc ≤ 8 then i % 256 else i % 65536))
              (comps.getD (0 + i) 0 * 1)) u) := by
        intro u hu
        have he : comps.getD (0 + i) 0 * 3 + u
            = 0 + comps.getD (0 + i) 0 * (3 + 0) + u := by ring
        rw [he]
        rw [pixWrites_getD_at (3 + 0) (by omega) _ 0 _ (comps.getD (0 + i) 0) u
          (by rw [pixList_length]; exact hv) hu
          (by rw [List.length_replicate]; omega)]
        rw [pixList_getD B _ 0 1 (2^bpc) (comps.getD (0 + i) 0) hv]
        rw [Nat.zero_add]
      have hBeq : B ((List.range (2^bpc)).map
            (fun i => if bpc ≤ 8 then i % 256 else i % 65536))
            (comps.getD (0 + i) 0 * 1)
          = B comps (0 + i * 1) := by
        apply hval
        intro j hj
        interval_cases j
        rw [Nat.add_zero, Nat.add_zero, Nat.mul_one]
        rw [allColors_getD bpc hb16 _ hv]
        rw [Nat.mul_one]
      have h0 := hcl 0 (by omega)
      have h1 := hcl 1 (by omega)
      have h2 := hcl 2 (by omega)
      rw [hBeq] at h0 h1 h2
      have key : ((fun tt : ℕ × ℕ × ℕ =>
            (clamp255 tt.1, clamp255 tt.2.1, clamp255 tt.2.2))
          (((pixWrites (3 + 0) (pixList B ((List.range (2^bpc)).map
                (fun i => if bpc ≤ 8 then i % 256 else i % 65536)) 0 1 (2^bpc))
              0 (List.replicate (2^bpc * 3) 0)).getD
                (comps.getD (0 + i) 0 * 3 + 0) 0,
            (pixWrites (3 + 0) (pixList B ((List.range (2^bpc)).map
                (fun i => if bpc ≤ 8 then i % 256 else i % 65536)) 0 1 (2^bpc))
              0 (List.replicate (2^bpc * 3) 0)).getD
                (comps.getD (0 + i) 0 * 3 + 1) 0,
            (pixWrites (3 + 0) (pixList B ((List.range (2^bpc)).map
                (fun i => if bpc ≤ 8 then i % 256 else i % 65536)) 0 1 (2^bpc))
              0 (List.replicate (2^bpc * 3) 0)).getD
                (comps.getD (0 + i) 0 * 3 + 2) 0) : ℕ × ℕ × ℕ))
        = ((fun tt : ℕ × ℕ × ℕ =>
            (clamp255 tt.1, clamp255 tt.2.1, clamp255 tt.2.2))
          (B comps (0 + i * 1))) := by
        show ((clamp255 ((pixWrites (3 + 0) (pixList B ((List.range (2^bpc)).map
                (fun i => if bpc ≤ 8 then i % 256 else i % 65536)) 0 1 (2^bpc))
              0 (List.replicate (2^bpc * 3) 0)).getD
                (comps.getD (0 + i) 0 * 3 + 0) 0),
            clamp255 ((pixWrites (3 + 0) (pixList B ((List.range (2^bpc)).map
                (fun i => if bpc ≤ 8 then i % 256 else i % 65536)) 0 1 (2^bpc))
              0 (List.replicate (2^bpc * 3) 0)).getD
                (comps.getD (0 + i) 0 * 3 + 1) 0),
            clamp255 ((pixWrites (3 + 0) (pixList B ((List.range (2^bpc)).map
                (fun i => if bpc ≤ 8 then i % 256 else i % 65536)) 0 1 (2^bpc))
              0 (List.replicate (2^bpc * 3) 0)).getD
                (comps.getD (0 + i) 0 * 3 + 2) 0)) : ℕ × ℕ × ℕ)
          = ((clamp255 (B comps (0 + i * 1)).1, clamp255 (B comps (0 + i * 1)).2.1,
              clamp255 (B comps (0 + i * 1)).2.2) : ℕ × ℕ × ℕ)
        rw [h0, h1, h2]
        rw [clamp255_idem, clamp255_idem, clamp255_idem]
        rfl
      exact key
    · rw [if_neg hcm, if_neg hnr]

/-- C3 counterexample.  An Indexed space over DeviceRGB with `highVal = 1`
but 1 bit per component, at `3 × 1` identity size: sample 1 indexes past
the 3-byte lookup table.  The direct `getRgbBuffer` path hits the
DeviceRGB raw-copy, whose out-of-range subarray is empty, and leaves the
destination pixel bytes `1,1,1` untouched; the one-component color-map
path materializes the same out-of-range row as table bytes `0,0,0` and
writes them.  The two paths produce different bytes. -/
theorem claim3_counterexample :
    fillRgbS (CS.sem jsm0 (CS.indexed .deviceRGB 1 [9, 8, 7]))
        (List.replicate 9 1) 3 1 3 1 1 1 [0, 1, 0] 0
      = .ok [9, 8, 7, 0, 0, 0, 9, 8, 7] ∧
    (CS.sem jsm0 (CS.indexed .deviceRGB 1 [9, 8, 7])).buf [0, 1, 0] 0 (3 * 1)
        (List.replicate 9 1) 0 1 0
      = .ok [9, 8, 7, 1, 1, 1, 9, 8, 7] ∧
    fillRgbS (CS.sem jsm0 (CS.indexed .deviceRGB 1 [9, 8, 7]))
        (List.replicate 9 1) 3 1 3 1 1 1 [0, 1, 0] 0
      ≠ (CS.sem jsm0 (CS.indexed .deviceRGB 1 [9, 8, 7])).buf [0, 1, 0] 0 (3 * 1)
        (List.replicate 9 1) 0 1 0 := by
  refine ⟨rfl, rfl, ?_⟩
  intro h
  have hh : (Except.ok [9, 8, 7, 0, 0, 0, 9, 8, 7] : Except Unit (List ℕ))
      = Except.ok [9, 8, 7, 1, 1, 1, 9, 8, 7] := h
  have hl := Except.ok.inj hh
  simp at hl

/-- Witness instantiating C3 (as amended) on a one-pixel DeviceGray raster
at 1 bit per component. -/
theorem claim3_amended_witness :
    fillRgbS (CS.sem jsm0 CS.deviceGray) (List.replicate 3 7) 1 1 1 1 1 1 [0] 0
      = (CS.sem jsm0 CS.deviceGray).buf [0] 0 (1 * 1) (List.replicate 3 7) 0 1 0 :=
  claim3_amended jsm0 CS.deviceGray 1 1 1 1 [0] (List.replicate 3 7) 0
    (by exact trivial) (by norm_num) rfl
    ⟨by decide, fun t _ h2 => by
      have h2n : t < 1 := by simpa [CS.nc, CS.ncOpt] using h2
      interval_cases t
      decide⟩
    (Or.inl rfl)
